import Mathlib

/-!
# Tracing adapters of sf-elastic-apm-go: a shallow embedding

Three adapters are embedded, each in the namespace of its Go package:

* `apmgoredisv8` (`module/apmgoredisv8/hook.go`): the go-redis hook,
* `apmmongo` (`module/apmmongo/monitor.go`): the MongoDB command monitor,
* `apmgoji` (`module/apmgoji/middleware.go`): the goji HTTP middleware.

Conventions of the embedding.

* A Go `error` is an `Option String`: `none` is `nil`, `some msg` is a non-nil
  error with message `msg` (`fmt.Errorf("%s", msg)`).
* A Go function that can panic returns `Except Panic _`.
* The tracer (`go.elastic.co/apm`) and the wrapped libraries are external.  Their
  observable effect is recorded in explicit state: the spans started, the spans
  ended, the errors sent.  What they decide on their own (whether a span is
  dropped, how a rune is upper-cased, whether a BSON document can be encoded) is
  an input of the model.
* Go strings are Lean strings, so only valid UTF-8 text is covered.
-/

set_option autoImplicit false

/-! ## Go standard library: the `strings` functions used by the hook -/

namespace strings

/-- Go's `strings.ToUpper`, which maps every rune through `unicode.ToUpper`.
The rune mapping itself is the argument `upper`. -/
def ToUpper (upper : Char → Char) (s : String) : String :=
  ⟨s.data.map upper⟩

/-- Go's `unicode.IsSpace`: the runes with the Unicode White_Space property. -/
def isSpace (c : Char) : Bool :=
  c = ' ' || c = '\t' || c = '\n' || c = '\x0b' || c = '\x0c' || c = '\r' ||
  c.toNat = 0x85 || c.toNat = 0xA0 || c.toNat = 0x1680 ||
  (0x2000 ≤ c.toNat && c.toNat ≤ 0x200A) ||
  c.toNat = 0x2028 || c.toNat = 0x2029 || c.toNat = 0x202F || c.toNat = 0x205F ||
  c.toNat = 0x3000

/-- Go's `strings.TrimSpace`: all leading and trailing white space removed. -/
def TrimSpace (s : String) : String :=
  ⟨((s.data.dropWhile isSpace).reverse.dropWhile isSpace).reverse⟩

end strings

/-- Go's builtin `len` on a string: its length in bytes. -/
def len (s : String) : Nat := s.utf8ByteSize

/-- Equality of the results of Go functions that can panic is decidable. -/
instance instDecidableEqExcept {ε α : Type} [DecidableEq ε] [DecidableEq α] :
    DecidableEq (Except ε α)
  | .ok a, .ok b =>
    if h : a = b then isTrue (by rw [h]) else isFalse (fun h2 => h (Except.ok.inj h2))
  | .error a, .error b =>
    if h : a = b then isTrue (by rw [h]) else isFalse (fun h2 => h (Except.error.inj h2))
  | .ok _, .error _ => isFalse (fun h => by cases h)
  | .error _, .ok _ => isFalse (fun h => by cases h)

/-! ## `module/apmgoredisv8/hook.go` -/

namespace apmgoredisv8

/-- A run-time panic of the Go program. -/
inductive Panic where
  /-- The failed type assertion `x.(string)`; `dynamicType` is the type `x` has. -/
  | typeAssertion (dynamicType : String)
  deriving DecidableEq, Repr

/-- One element of `redis.Cmder.Args()`, a Go `interface{}`: go-redis stores
strings, integers and values of other types in it. -/
inductive Arg where
  | str (s : String)
  | int (n : Int)
  | other (dynamicType : String)
  deriving DecidableEq, Repr

/-- The type assertion `arg.(string)`: it panics unless `arg` holds a string. -/
def Arg.assertString : Arg → Except Panic String
  | .str s => .ok s
  | .int _ => .error (.typeAssertion "int64")
  | .other t => .error (.typeAssertion t)

/-- What the hook reads from a `redis.Cmder`: `cmd.Name()` and `cmd.Args()`. -/
structure Cmder where
  Name : String
  Args : List Arg
  deriving DecidableEq, Repr

/-- A command all of whose arguments are Go strings. -/
def Cmder.ofStrings (name : String) (args : List String) : Cmder :=
  ⟨name, args.map Arg.str⟩

/-- Go's `apm.DatabaseSpanContext` with the two fields the hook sets. -/
structure DatabaseSpanContext where
  dbType : String
  Statement : String
  deriving DecidableEq, Repr

/-- A span as the hook leaves it: its name, its type and its database context. -/
structure Span where
  name : String
  spanType : String
  database : Option DatabaseSpanContext
  deriving DecidableEq, Repr

/-- A `context.Context` seen through `apm.SpanFromContext`: the spans started in
it, the innermost first. -/
structure Context where
  spans : List Span
  deriving DecidableEq, Repr

/-- Go's `apm.StartSpan(ctx, name, spanType)` followed by
`span.Context.SetDatabase(db)`: one span is started and the returned context
carries it. -/
def StartSpanWithDatabase (ctx : Context) (name spanType : String)
    (db : DatabaseSpanContext) : Context :=
  ⟨⟨name, spanType, some db⟩ :: ctx.spans⟩

/-- The body of the loop `for i, arg := range cmd.Args()` of `getCmdDetails`,
with `statement` as accumulator. -/
def getCmdDetails.loop (upper : Char → Char) :
    Nat → List Arg → String → Except Panic String
  | _, [], statement => .ok statement
  | i, arg :: rest, statement =>
    -- if i == 0 { arg = strings.ToUpper(arg.(string)) }
    match (if i = 0 then
        (match arg.assertString with
          | .ok s => Except.ok (Arg.str (strings.ToUpper upper s))
          | .error p => Except.error p)
      else Except.ok arg) with
    | .error p => .error p
    | .ok arg =>
      -- argString := arg.(string)
      match arg.assertString with
      | .error p => .error p
      | .ok argString => getCmdDetails.loop upper (i + 1) rest (statement ++ " " ++ argString)

/-- Go's `getCmdDetails(cmd)`: the span name and the statement of a command. -/
def getCmdDetails (upper : Char → Char) (cmd : Cmder) : Except Panic (String × String) :=
  let cmdName := strings.ToUpper upper cmd.Name
  let cmdName := if cmdName = "" then "(empty command)" else cmdName
  match getCmdDetails.loop upper 0 cmd.Args "" with
  | .error p => .error p
  | .ok statement =>
    let statement :=
      if statement = "" ∧ cmdName ≠ "PING" then "(empty args)" else statement
    .ok (cmdName, strings.TrimSpace statement)

/-- Go's `(*hook).BeforeProcess(ctx, cmd)`: the new context and the returned error. -/
def BeforeProcess (upper : Char → Char) (ctx : Context) (cmd : Cmder) :
    Except Panic (Context × Option String) :=
  match getCmdDetails upper cmd with
  | .error p => .error p
  | .ok (cmdName, statement) =>
    .ok (StartSpanWithDatabase ctx cmdName "db.redis.query" ⟨"redis", statement⟩, none)

/-- The loop `for i, cmd := range cmds` of `BeforeProcessPipeline`, with the two
buffers `cmdNameBuf` and `cmdArgsBuf` as accumulators. -/
def BeforeProcessPipeline.loop (upper : Char → Char) :
    Nat → List Cmder → String → String → Except Panic (String × String)
  | _, [], cmdNameBuf, cmdArgsBuf => .ok (cmdNameBuf, cmdArgsBuf)
  | i, cmd :: rest, cmdNameBuf, cmdArgsBuf =>
    let cmdNameBuf := if i ≠ 0 then cmdNameBuf ++ ", " else cmdNameBuf
    let cmdArgsBuf := if i ≠ 0 then cmdArgsBuf ++ ", " else cmdArgsBuf
    match getCmdDetails upper cmd with
    | .error p => .error p
    | .ok (cmdName, statement) =>
      BeforeProcessPipeline.loop upper (i + 1) rest
        (cmdNameBuf ++ cmdName) (cmdArgsBuf ++ statement)

/-- Go's `(*hook).BeforeProcessPipeline(ctx, cmds)`. -/
def BeforeProcessPipeline (upper : Char → Char) (ctx : Context) (cmds : List Cmder) :
    Except Panic (Context × Option String) :=
  match BeforeProcessPipeline.loop upper 0 cmds "" "" with
  | .error p => .error p
  | .ok (cmdNameBuf, cmdArgsBuf) =>
    .ok (StartSpanWithDatabase ctx cmdNameBuf "db.redis.query" ⟨"redis", cmdArgsBuf⟩, none)

/-- Go's `(*hook).AfterProcess` and `AfterProcessPipeline`: the innermost span of
the context, if any, is ended; the result is the list of ended spans and the
returned error. -/
def AfterProcess (ctx : Context) : List Span × Option String :=
  match ctx.spans with
  | [] => ([], none)
  | span :: _ => ([span], none)

/-- The name `getCmdDetails` gives a command: its upper-cased name, or
`(empty command)` for an empty name. -/
def spanNameOf (upper : Char → Char) (cmd : Cmder) : String :=
  if cmd.Name = "" then "(empty command)" else strings.ToUpper upper cmd.Name

/-- The statement the specification gives a command whose arguments are all
strings: the arguments joined by single spaces, the first one upper-cased, with
surrounding white space trimmed; without arguments `(empty args)`, or the empty
string when the span name is `PING`. -/
def statementOf (upper : Char → Char) (name : String) (args : List String) : String :=
  match args with
  | [] => if spanNameOf upper ⟨name, []⟩ = "PING" then "" else "(empty args)"
  | a :: rest => strings.TrimSpace (String.intercalate " " (strings.ToUpper upper a :: rest))

/-- The command `SET key 42`: go-redis keeps the integer value as an integer. -/
def setIntCmd : Cmder := ⟨"set", [.str "set", .str "key", .int 42]⟩

/-- The command `GET key`, all of whose arguments are strings. -/
def getCmd : Cmder := Cmder.ofStrings "get" ["get", "key"]

end apmgoredisv8

/-! ## `module/apmmongo/monitor.go` -/

namespace apmmongo

/-- A BSON value as the driver's parser presents it (`bson.RawValue`).  The code
only distinguishes strings, embedded documents and arrays; every other BSON type
is `other`, with its type byte and the length in bytes of its data.  An array
carries its values and whether `Values()` accepts its bytes, since `Elements()`
on the enclosing document checks only the length of a nested value. -/
inductive Value where
  | string (s : String)
  | document (elems : List (String × Value))
  | array (vals : List Value) (valid : Bool)
  | other (bsonType : Nat) (dataLen : Nat)

/-- The zero `bson.RawValue`, which `Lookup` returns when the key is not found. -/
def Value.zero : Value := .other 0 0

/-- Go's `len(v.Value) > 0`, the data of the value is not empty: a string, a
document and an array each occupy at least five bytes. -/
def Value.hasData : Value → Bool
  | .string _ => true
  | .document _ => true
  | .array _ _ => true
  | .other _ dataLen => decide (0 < dataLen)

/-- Go's `RawValue.StringValueOK()`. -/
def Value.StringValueOK : Value → String × Bool
  | .string s => (s, true)
  | _ => ("", false)

/-- Go's `RawValue.DocumentOK()`. -/
def Value.DocumentOK : Value → List (String × Value) × Bool
  | .document elems => (elems, true)
  | _ => ([], false)

/-- Go's `RawValue.ArrayOK()`: the array, as its values and whether `Values()`
accepts it, and whether the value is an array at all. -/
def Value.ArrayOK : Value → (List Value × Bool) × Bool
  | .array vals valid => ((vals, valid), true)
  | _ => (([], false), false)

/-- Go's `Values()` on an array: its values and an error for a malformed array. -/
def Values (bsonArray : List Value × Bool) : List Value × Option String :=
  (bsonArray.1, if bsonArray.2 then none else some "malformed array")

/-- Go's `Lookup(key)` on the elements of a document: the value of the first
element with that key, the zero value when there is none. -/
def lookup (key : String) : List (String × Value) → Value
  | [] => Value.zero
  | (k, v) :: rest => if k = key then v else lookup key rest

/-- A `bson.Raw` through the three observations the code makes on it: its length
in bytes, the elements its bytes hold in order, and whether `Elements()` accepts
it as a well-formed document. -/
structure Raw where
  byteLen : Nat
  elems : List (String × Value)
  valid : Bool

/-- Go's `Raw.Elements()`: the elements and an error for a malformed document. -/
def Raw.Elements (r : Raw) : List (String × Value) × Option String :=
  (r.elems, if r.valid then none else some "malformed document")

/-- Go's `Raw.Lookup(key)`. -/
def Raw.Lookup (r : Raw) (key : String) : Value := lookup key r.elems

/-- Go's `event.CommandStartedEvent`. -/
structure CommandStartedEvent where
  Command : Raw
  DatabaseName : String
  CommandName : String
  RequestID : Int
  ConnectionID : String

/-- Go's `event.CommandFinishedEvent`. -/
structure CommandFinishedEvent where
  CommandName : String
  RequestID : Int
  ConnectionID : String

/-- Go's `event.CommandSucceededEvent`, which embeds `CommandFinishedEvent`. -/
structure CommandSucceededEvent extends CommandFinishedEvent where
  Reply : Raw

/-- Go's `event.CommandFailedEvent`, which embeds `CommandFinishedEvent`. -/
structure CommandFailedEvent extends CommandFinishedEvent where
  Failure : String

/-- Go's `commandKey`. -/
structure commandKey where
  connectionID : String
  requestID : Int
  deriving DecidableEq, Repr

/-- A `*apm.Span`: its identity (the number of spans the tracer had started
before it), its name and type, and what `span.Dropped()` returns. -/
structure Span where
  id : Nat
  name : String
  spanType : String
  dropped : Bool
  deriving DecidableEq, Repr

/-- Go's `apm.DatabaseSpanContext` with the three fields `started` sets. -/
structure DatabaseSpanContext where
  Instance : String
  dbType : String
  Statement : String
  deriving DecidableEq, Repr

/-- The `context.Context` of an event.  The tracer decides from it (no
transaction, transaction not sampled, span limit reached) whether the span it
starts is a dropped one; that decision is the field `dropsSpan`. -/
structure Context where
  dropsSpan : Bool
  deriving DecidableEq, Repr

/-- The calls the tracer has received: the spans started, the database contexts
set, the errors captured for a span and sent, and the spans ended, each in call
order. -/
structure Tracer where
  started : List Span
  databases : List (Nat × DatabaseSpanContext)
  errors : List (Nat × String)
  ended : List Nat
  deriving DecidableEq, Repr

/-- A tracer that has received no call. -/
def Tracer.fresh : Tracer := ⟨[], [], [], []⟩

/-- Go's `apm.StartSpan(ctx, name, spanType)`. -/
def Tracer.StartSpan (t : Tracer) (ctx : Context) (name spanType : String) : Span × Tracer :=
  let span : Span := ⟨t.started.length, name, spanType, ctx.dropsSpan⟩
  (span, { t with started := t.started ++ [span] })

/-- Go's `span.Context.SetDatabase(db)`. -/
def Tracer.SetDatabase (t : Tracer) (span : Span) (db : DatabaseSpanContext) : Tracer :=
  { t with databases := t.databases ++ [(span.id, db)] }

/-- Go's `apm.CaptureError(apm.ContextWithSpan(ctx, span), err)` followed by
`e.Send()`. -/
def Tracer.CaptureErrorSend (t : Tracer) (span : Span) (err : String) : Tracer :=
  { t with errors := t.errors ++ [(span.id, err)] }

/-- Go's `span.End()`. -/
def Tracer.End (t : Tracer) (span : Span) : Tracer :=
  { t with ended := t.ended ++ [span.id] }

/-- Go's `c.spans[key] = span` on the map `map[commandKey]*apm.Span`. -/
def mapInsert (key : commandKey) (span : Span) (m : List (commandKey × Span)) :
    List (commandKey × Span) :=
  (key, span) :: m.filter (fun e => e.1 ≠ key)

/-- Go's `span, ok := c.spans[key]`. -/
def mapLookup (key : commandKey) (m : List (commandKey × Span)) : Option Span :=
  (m.find? (fun e => e.1 = key)).map (fun e => e.2)

/-- Go's `delete(c.spans, key)`. -/
def mapDelete (key : commandKey) (m : List (commandKey × Span)) :
    List (commandKey × Span) :=
  m.filter (fun e => e.1 ≠ key)

/-- Go's `commandMonitor`.  The registry is seen through what it decides: the
Extended JSON text of a command, or `none` when the encoder cannot be built or
the encoding fails.  The mutex only serialises the map accesses. -/
structure commandMonitor where
  bsonRegistry : Raw → Option String
  spans : List (commandKey × Span)

/-- Go's `CommandMonitor(opts...)`: a monitor with an empty map. -/
def CommandMonitor (bsonRegistry : Raw → Option String) : commandMonitor :=
  ⟨bsonRegistry, []⟩

/-- Go's `collectionName(commandName, command)`. -/
def collectionName (commandName : String) (command : Raw) : String × Bool :=
  match commandName with
  | "aggregate" | "count" | "distinct" | "mapReduce"
  | "geoNear" | "geoSearch"
  | "delete" | "find" | "findAndModify" | "insert" | "parallelCollectionScan" | "update"
  | "compact" | "convertToCapped" | "create" | "createIndexes" | "drop" | "dropIndexes"
  | "killCursors" | "listIndexes" | "reIndex"
  | "collStats" =>
    let collectionValue := command.Lookup commandName
    collectionValue.StringValueOK
  | "getMore" =>
    let collectionValue := command.Lookup "collection"
    collectionValue.StringValueOK
  | _ => ("", false)

/-- The loop `for i, val := range vals` of `getWriteErrors`, with `we` as
accumulator. -/
def getWriteErrors.loop : Nat → List Value → String → String
  | _, [], we => we
  | i, val :: vals, we =>
    let we :=
      match val.DocumentOK with
      | (doc, true) =>
        match (lookup "errmsg" doc).StringValueOK with
        | (errmsg, exists_) =>
          if exists_ = true ∧ len errmsg > 0 then
            (if i ≠ 0 then we ++ ", " ++ errmsg else we ++ errmsg)
          else we
      | (_, false) => we
    getWriteErrors.loop (i + 1) vals we

/-- Go's `getWriteErrors(event)`. -/
def getWriteErrors (event : CommandSucceededEvent) : Bool × Option String :=
  let writeErrors := event.Reply.Lookup "writeErrors"
  if writeErrors.hasData then
    match writeErrors.ArrayOK with
    | (bsonArray, true) =>
      match Values bsonArray with
      | (vals, none) =>
        let we := getWriteErrors.loop 0 vals ""
        if len we > 0 then (true, some we) else (false, none)
      | (_, some _) => (false, none)
    | (_, false) => (false, none)
  else (false, none)

/-- Go's `getWriteConcernError(event)`. -/
def getWriteConcernError (event : CommandSucceededEvent) : Bool × Option String :=
  let writeConcernErrors := event.Reply.Lookup "writeConcernError"
  if writeConcernErrors.hasData then
    match writeConcernErrors.DocumentOK with
    | (doc, true) =>
      match (lookup "errmsg" doc).StringValueOK with
      | (errmsg, exists_) =>
        if exists_ = true ∧ len errmsg > 0 then (true, some errmsg) else (false, none)
    | (_, false) => (false, none)
  else (false, none)

/-- The loop `for _, elem := range elems` of `getErrMsg`; `none` when the loop
ends without a `return`. -/
def getErrMsg.loop (event : CommandSucceededEvent) :
    List (String × Value) → Option (Bool × Option String)
  | [] => none
  | (key, value) :: elems =>
    if key = "errmsg" then
      match value.StringValueOK with
      | (str, true) => some (true, some str)
      | (_, false) => getErrMsg.loop event elems
    else if key = "writeErrors" then
      match getWriteErrors event with
      | (true, errMsg) => some (true, errMsg)
      | (false, _) => getErrMsg.loop event elems
    else if key = "writeConcernError" then
      match getWriteConcernError event with
      | (true, errMsg) => some (true, errMsg)
      | (false, _) => getErrMsg.loop event elems
    else getErrMsg.loop event elems

/-- Go's `getErrMsg(event)`. -/
def getErrMsg (event : CommandSucceededEvent) : Bool × Option String :=
  match event.Reply.Elements with
  | (elems, none) =>
    match getErrMsg.loop event elems with
    | some r => r
    | none => (false, none)
  | (_, some _) => (false, none)

/-- Go's `(*commandMonitor).started(ctx, event)`. -/
def started (c : commandMonitor) (t : Tracer) (ctx : Context) (event : CommandStartedEvent) :
    commandMonitor × Tracer :=
  let spanName := event.CommandName
  let spanName :=
    match collectionName event.CommandName event.Command with
    | (collectionName, true) => collectionName ++ "." ++ spanName
    | (_, false) => spanName
  match t.StartSpan ctx spanName "db.mongodb.query" with
  | (span, t) =>
    if span.dropped then (c, t)
    else
      let statement :=
        if event.Command.byteLen > 0 then
          match c.bsonRegistry event.Command with
          | some text => text
          | none => ""
        else ""
      let t := t.SetDatabase span ⟨event.DatabaseName, "mongodb", statement⟩
      let key : commandKey := ⟨event.ConnectionID, event.RequestID⟩
      ({ c with spans := mapInsert key span c.spans }, t)

/-- Go's `(*commandMonitor).finished(ctx, event, err)`. -/
def finished (c : commandMonitor) (t : Tracer) (_ctx : Context) (event : CommandFinishedEvent)
    (err : Option String) : commandMonitor × Tracer :=
  let key : commandKey := ⟨event.ConnectionID, event.RequestID⟩
  match mapLookup key c.spans with
  | none => (c, t)
  | some span =>
    let c := { c with spans := mapDelete key c.spans }
    let t :=
      match err with
      | some e => t.CaptureErrorSend span e
      | none => t
    (c, t.End span)

/-- Go's `(*commandMonitor).succeeded(ctx, event)`. -/
def succeeded (c : commandMonitor) (t : Tracer) (ctx : Context) (event : CommandSucceededEvent) :
    commandMonitor × Tracer :=
  match getErrMsg event with
  | (true, errMsg) => finished c t ctx event.toCommandFinishedEvent errMsg
  | (false, _) => finished c t ctx event.toCommandFinishedEvent none

/-- Go's `(*commandMonitor).failed(ctx, event)`. -/
def failed (c : commandMonitor) (t : Tracer) (ctx : Context) (event : CommandFailedEvent) :
    commandMonitor × Tracer :=
  finished c t ctx event.toCommandFinishedEvent (some event.Failure)

/-- One callback of the `event.CommandMonitor` the driver invokes. -/
inductive Event where
  | started (ctx : Context) (event : CommandStartedEvent)
  | succeeded (ctx : Context) (event : CommandSucceededEvent)
  | failed (ctx : Context) (event : CommandFailedEvent)

/-- The connection id and request id an event carries. -/
def Event.key : Event → commandKey
  | .started _ e => ⟨e.ConnectionID, e.RequestID⟩
  | .succeeded _ e => ⟨e.ConnectionID, e.RequestID⟩
  | .failed _ e => ⟨e.ConnectionID, e.RequestID⟩

/-- A command-started event. -/
def Event.isStart : Event → Bool
  | .started _ _ => true
  | _ => false

/-- A completion event: succeeded or failed. -/
def Event.isFinish : Event → Bool
  | .started _ _ => false
  | _ => true

/-- The monitor and the tracer after one callback. -/
def step (s : commandMonitor × Tracer) : Event → commandMonitor × Tracer
  | .started ctx e => started s.1 s.2 ctx e
  | .succeeded ctx e => succeeded s.1 s.2 ctx e
  | .failed ctx e => failed s.1 s.2 ctx e

/-- The monitor and the tracer after a sequence of callbacks. -/
def run (s : commandMonitor × Tracer) (events : List Event) : commandMonitor × Tracer :=
  events.foldl step s

/-- The fixed allow-list of the specification: the command names whose command
document names a collection. -/
def allowList : List String :=
  ["aggregate", "count", "distinct", "mapReduce", "geoNear", "geoSearch", "delete", "find",
   "findAndModify", "insert", "parallelCollectionScan", "update", "compact",
   "convertToCapped", "create", "createIndexes", "drop", "dropIndexes", "killCursors",
   "listIndexes", "reIndex", "collStats", "getMore"]

/-- The key under which the command document names the collection: the command
name itself, and `collection` for `getMore`. -/
def collectionKey (commandName : String) : String :=
  if commandName = "getMore" then "collection" else commandName

/-- The span name as the specification words it: `<collection>.<commandName>`
when the command name is in the allow-list and the command document holds a
string under the collection key, the bare command name otherwise. -/
def spanNameSpec (commandName : String) (command : Raw) : String :=
  if commandName ∈ allowList then
    match command.Lookup (collectionKey commandName) with
    | .string collection => collection ++ "." ++ commandName
    | _ => commandName
  else commandName

/-- The non-empty string `errmsg` of a `writeErrors` array element that is a
document, if it has one. -/
def errmsgOf : Value → Option String
  | .document doc =>
    match lookup "errmsg" doc with
    | .string errmsg => if errmsg = "" then none else some errmsg
    | _ => none
  | _ => none

/-- The non-empty string `errmsg` values of the document elements of a
`writeErrors` array, in array order. -/
def errmsgs (vals : List Value) : List String := vals.filterMap errmsgOf

/-- The replies the code reports as failed: the reply is a well-formed document
and it holds a top-level `errmsg` element with a string value, or its
`writeErrors` value is a well-formed array with a document that has a non-empty
string `errmsg`, or its `writeConcernError` value is a document with a non-empty
string `errmsg`. -/
def hasErrorMessage (reply : Raw) : Prop :=
  reply.valid = true
    ∧ ((∃ s, ("errmsg", Value.string s) ∈ reply.elems)
      ∨ (∃ vals d m, reply.Lookup "writeErrors" = .array vals true ∧ .document d ∈ vals
          ∧ lookup "errmsg" d = .string m ∧ m ≠ "")
      ∨ (∃ d m, reply.Lookup "writeConcernError" = .document d
          ∧ lookup "errmsg" d = .string m ∧ m ≠ ""))

/-- The reply `{"ok": 1.0, "writeConcernError": {"code": 64, "errmsg": ""}}`: a
`writeConcernError` whose `errmsg` is empty. -/
def replyEmptyConcern : Raw :=
  ⟨64, [("ok", .other 1 8),
        ("writeConcernError", .document [("code", .other 16 4), ("errmsg", .string "")])],
    true⟩

/-- The reply `{"n": 1, "writeErrors": [{"index": 0, "code": 11000}, {"index": 1,
"errmsg": "boom"}]}`: the first write error carries no `errmsg`. -/
def replySecondErrmsg : Raw :=
  ⟨95, [("n", .other 16 4),
        ("writeErrors", .array
          [.document [("index", .other 16 4), ("code", .other 16 4)],
           .document [("index", .other 16 4), ("errmsg", .string "boom")]] true)], true⟩

/-- The reply `{"ok": 1.0, "writeErrors": [{"index": 0, "code": 11000}]}`: a
`writeErrors` element none of whose documents carries an `errmsg`. -/
def replyNoErrmsg : Raw :=
  ⟨64, [("ok", .other 1 8),
        ("writeErrors", .array
          [.document [("index", .other 16 4), ("code", .other 16 4)]] true)], true⟩

/-- The reply `{"ok": 0.0, "errmsg": "not primary"}`. -/
def replyErrmsg : Raw :=
  ⟨41, [("ok", .other 1 8), ("errmsg", .string "not primary")], true⟩

/-- The reply `{"ok": 1.0, "n": 1}`, without any error field. -/
def replyOk : Raw :=
  ⟨24, [("ok", .other 1 8), ("n", .other 16 4)], true⟩

/-- The succeeded event of request 7 on connection `conn-1` for an `insert`,
carrying the given reply. -/
def insertSucceeded (reply : Raw) : CommandSucceededEvent :=
  { CommandName := "insert", RequestID := 7, ConnectionID := "conn-1", Reply := reply }

/-- The started event of request 7 on connection `conn-1`: the command
`{"insert": "users"}` on the database `app`. -/
def insertStarted : CommandStartedEvent :=
  { Command := ⟨23, [("insert", .string "users")], true⟩, DatabaseName := "app",
    CommandName := "insert", RequestID := 7, ConnectionID := "conn-1" }

/-- The failed event of request 7 on connection `conn-1`. -/
def insertFailed : CommandFailedEvent :=
  { CommandName := "insert", RequestID := 7, ConnectionID := "conn-1",
    Failure := "connection reset" }

/-- A registry whose encoder never yields a statement. -/
def noStatement : Raw → Option String := fun _ => none

/-- The invariant of the monitor and the tracer: every recorded span has been
started and not ended, distinct keys record distinct spans, and every ended span
has been started and was ended once. -/
def Inv (s : commandMonitor × Tracer) : Prop :=
  (∀ e ∈ s.1.spans, e.2.id < s.2.started.length)
    ∧ (∀ e ∈ s.1.spans, e.2.id ∉ s.2.ended)
    ∧ s.2.ended.Nodup
    ∧ (∀ id ∈ s.2.ended, id < s.2.started.length)
    ∧ (∀ e1 ∈ s.1.spans, ∀ e2 ∈ s.1.spans, e1.2.id = e2.2.id → e1.1 = e2.1)

/-- A span that has been started, is not recorded in the map and has not been
ended. -/
def Orphan (id : Nat) (s : commandMonitor × Tracer) : Prop :=
  id < s.2.started.length ∧ (∀ e ∈ s.1.spans, e.2.id ≠ id) ∧ id ∉ s.2.ended

/-- The keys present in the correlation map. -/
def keys (c : commandMonitor) : List commandKey := c.spans.map (fun e => e.1)

end apmmongo

/-! ## `module/apmgoji/middleware.go` -/

namespace apmgoji

/-- The value `recover()` returns in a deferred function.  `nil` is the nil
interface: `recover()` returns it when no panic is in flight, and also for a
`panic(nil)` when the runtime keeps the behaviour of Go before 1.21
(`GODEBUG=panicnil=1`, the default of a main module that declares an older Go
version); otherwise `panic(nil)` arrives as a non-nil `*runtime.PanicNilError`,
which is a `value` like any other. -/
inductive PanicValue where
  | nil
  | value (text : String)
  deriving DecidableEq, Repr

/-- Go's `ServeConfig`. -/
structure ServeConfig where
  Resource : String
  deriving DecidableEq, Repr

/-- Go's `http.StatusOK`. -/
def StatusOK : Nat := 200

/-- Go's `http.StatusInternalServerError`. -/
def StatusInternalServerError : Nat := 500

/-- A call `TraceAndServe` makes on the tracer, on the response writer or on the
body capturer. -/
inductive Call where
  /-- The call `apmhttp.StartTransactionWithBody(m.tracer, cfg.Resource, r)`. -/
  | StartTransactionWithBody (name : String)
  /-- The call `apmhttp.WrapResponseWriter(w)`. -/
  | WrapResponseWriter
  /-- The call `h.ServeHTTP(rw, req)`. -/
  | ServeHTTP
  /-- The call `w.WriteHeader(status)` on the original response writer. -/
  | WriteHeader (status : Nat)
  /-- The call `m.tracer.Recovered(v)`, which builds the error `e`. -/
  | Recovered (v : PanicValue)
  /-- The call `e.SetTransaction(tx)`. -/
  | ErrorSetTransaction
  /-- The call `setContext(&e.Context, req, status, body)`. -/
  | ErrorSetContext (status : Nat)
  /-- The call `e.Send()`. -/
  | ErrorSend
  /-- The call `apmhttp.SetTransactionContext(tx, req, resp, body)`, with the
  value of `resp.StatusCode` at the call. -/
  | SetTransactionContext (status : Nat)
  /-- The call `body.Discard()`. -/
  | BodyDiscard
  /-- The call `tx.End()`. -/
  | TransactionEnd
  deriving DecidableEq, Repr

/-- What `h.ServeHTTP(rw, req)` does, as far as `TraceAndServe` observes it: the
status the handler leaves in `resp.StatusCode` through the wrapped writer (0 when
it wrote no header), and, when it panics, the value `recover()` will return for
that panic. -/
structure Handler where
  statusCode : Nat
  panics : Option PanicValue
  deriving DecidableEq, Repr

/-- The activation of `TraceAndServe`: the calls made so far, the variable
`resp.StatusCode`, and the panic in flight, if any.  The function returns
normally exactly when no panic is in flight after the deferred calls. -/
structure Frame where
  calls : List Call
  respStatusCode : Nat
  panicking : Option PanicValue
  deriving DecidableEq, Repr

/-- Go's builtin `recover()` called by a deferred function: it returns the value
of the panic in flight, nil when there is none, and stops the panic. -/
def recover (fr : Frame) : PanicValue × Frame :=
  (match fr.panicking with
    | some v => v
    | none => PanicValue.nil,
   { fr with panicking := none })

/-- The deferred closure of `TraceAndServe`. -/
def TraceAndServe.deferred (fr : Frame) : Frame :=
  let panicked := false
  match recover fr with
  | (v, fr) =>
    -- if v := recover(); v != nil { ... }
    match (if v ≠ PanicValue.nil then
          (true, { fr with calls := fr.calls ++
            [Call.WriteHeader StatusInternalServerError, Call.Recovered v,
              Call.ErrorSetTransaction, Call.ErrorSetContext StatusInternalServerError,
              Call.ErrorSend] })
        else (panicked, fr)) with
    | (panicked, fr) =>
      let fr : Frame :=
        if panicked = true then
          { fr with respStatusCode := StatusInternalServerError,
                    calls := fr.calls ++ [Call.SetTransactionContext StatusInternalServerError] }
        else
          { fr with calls := fr.calls ++ [Call.SetTransactionContext fr.respStatusCode] }
      { fr with calls := fr.calls ++ [Call.BodyDiscard] }

/-- Go's `(*middleware).TraceAndServe(h, w, r, cfg)`: the body up to the end or
to the panic of the handler, then the deferred closure, then the deferred
`tx.End()`. -/
def TraceAndServe (h : Handler) (cfg : Option ServeConfig) : Frame :=
  let cfg : ServeConfig :=
    match cfg with
    | none => ⟨""⟩
    | some cfg => cfg
  let fr : Frame :=
    ⟨[Call.StartTransactionWithBody cfg.Resource, Call.WrapResponseWriter], 0, none⟩
  let fr : Frame :=
    { fr with calls := fr.calls ++ [Call.ServeHTTP],
              respStatusCode := h.statusCode,
              panicking := h.panics }
  let fr : Frame :=
    match fr.panicking with
    | some _ => fr
    | none => if fr.respStatusCode = 0 then { fr with respStatusCode := StatusOK } else fr
  let fr := TraceAndServe.deferred fr
  { fr with calls := fr.calls ++ [Call.TransactionEnd] }

/-- A handler that writes no header and calls `panic(nil)`, in a program whose
runtime lets `recover()` return nil for it. -/
def nilPanicHandler : Handler := ⟨0, some PanicValue.nil⟩

end apmgoji

/-! ## Theorems: Go strings -/

namespace strings

theorem ToUpper_eq_empty (upper : Char → Char) (s : String) :
    ToUpper upper s = "" ↔ s = "" := by
  constructor
  · intro h
    have hd : (ToUpper upper s).data = [] := by rw [h]
    apply String.ext
    simpa [ToUpper] using hd
  · intro h
    subst h
    rfl

theorem TrimSpace_space_append (s : String) : TrimSpace (" " ++ s) = TrimSpace s := by
  have hd : (" " ++ s).data = ' ' :: s.data := by
    rw [String.data_append]; rfl
  unfold TrimSpace
  rw [hd]
  have hsp : isSpace ' ' = true := by decide
  rw [List.dropWhile_cons_of_pos hsp]

theorem space_append_ne_empty (s : String) : (" " ++ s) ≠ "" := by
  intro h
  have hd : (" " ++ s).data = [] := by rw [h]
  rw [String.data_append] at hd
  exact absurd hd (by simp)

end strings

/-- Folding `acc ++ sep ++ a` over a list is the accumulator loop of
`String.intercalate`. -/
theorem intercalate_go_eq_foldl (sep : String) (l : List String) (acc : String) :
    String.intercalate.go acc sep l = l.foldl (fun acc a => acc ++ sep ++ a) acc := by
  induction l generalizing acc with
  | nil => rfl
  | cons a as ih => simp [String.intercalate.go, ih]

theorem foldl_sep_append (sep p : String) (l : List String) (acc : String) :
    l.foldl (fun acc a => acc ++ sep ++ a) (p ++ acc)
      = p ++ l.foldl (fun acc a => acc ++ sep ++ a) acc := by
  induction l generalizing acc with
  | nil => rfl
  | cons a as ih =>
    simp only [List.foldl_cons]
    rw [String.append_assoc, String.append_assoc, ← String.append_assoc acc, ih]

/-! ## Theorems: the go-redis hook -/

namespace apmgoredisv8

theorem getCmdDetails_loop_strings (upper : Char → Char) (args : List String) (i : Nat)
    (statement : String) :
    getCmdDetails.loop upper (i + 1) (args.map Arg.str) statement
      = .ok (args.foldl (fun acc a => acc ++ " " ++ a) statement) := by
  induction args generalizing i statement with
  | nil => rfl
  | cons a as ih =>
    simp only [List.map_cons, List.foldl_cons]
    rw [getCmdDetails.loop]
    simp only [Nat.add_one_ne_zero, if_false, Arg.assertString]
    exact ih (i + 1) _

theorem getCmdDetails_loop_zero (upper : Char → Char) (a : String) (rest : List String) :
    getCmdDetails.loop upper 0 ((a :: rest).map Arg.str) ""
      = .ok (" " ++ String.intercalate " " (strings.ToUpper upper a :: rest)) := by
  simp only [List.map_cons]
  rw [getCmdDetails.loop]
  simp only [if_true, Arg.assertString]
  rw [getCmdDetails_loop_strings]
  have h0 : ("" ++ " " ++ strings.ToUpper upper a : String)
      = " " ++ strings.ToUpper upper a := by
    rw [String.empty_append]
  rw [h0, foldl_sep_append]
  simp only [String.intercalate, intercalate_go_eq_foldl]

end apmgoredisv8

namespace apmgoredisv8

theorem getCmdDetails_ofStrings (upper : Char → Char) (name : String) (args : List String) :
    getCmdDetails upper (Cmder.ofStrings name args)
      = .ok (spanNameOf upper ⟨name, []⟩, statementOf upper name args) := by
  have hname : (if strings.ToUpper upper name = "" then "(empty command)"
      else strings.ToUpper upper name) = spanNameOf upper ⟨name, []⟩ := by
    unfold spanNameOf
    by_cases h : name = ""
    · simp [h, (strings.ToUpper_eq_empty upper "").2 rfl]
    · have h2 : ¬ strings.ToUpper upper name = "" :=
        fun hc => h ((strings.ToUpper_eq_empty upper name).1 hc)
      simp [h, h2]
  cases args with
  | nil =>
    simp only [getCmdDetails, Cmder.ofStrings, List.map_nil, getCmdDetails.loop, hname,
      statementOf]
    by_cases hp : spanNameOf upper ⟨name, []⟩ = "PING"
    · simp only [hp, ne_eq, not_true_eq_false, and_false, if_false, if_true]
      rfl
    · simp only [hp, ne_eq, not_false_eq_true, and_self, if_true, if_false]
      rfl
  | cons a rest =>
    simp only [getCmdDetails, Cmder.ofStrings, hname, statementOf]
    rw [getCmdDetails_loop_zero]
    simp only [strings.space_append_ne_empty, false_and, if_false,
      strings.TrimSpace_space_append]

theorem pipeline_loop_succ (upper : Char → Char) (cmds : List (String × List String))
    (i : Nat) (names stmts : String) :
    BeforeProcessPipeline.loop upper (i + 1)
        (cmds.map (fun c => Cmder.ofStrings c.1 c.2)) names stmts
      = .ok (cmds.foldl (fun acc c => acc ++ ", " ++ spanNameOf upper ⟨c.1, []⟩) names,
             cmds.foldl (fun acc c => acc ++ ", " ++ statementOf upper c.1 c.2) stmts) := by
  induction cmds generalizing i names stmts with
  | nil => rfl
  | cons c cs ih =>
    simp only [List.map_cons, List.foldl_cons]
    rw [BeforeProcessPipeline.loop, getCmdDetails_ofStrings]
    simp only [ne_eq, Nat.add_one_ne_zero, not_false_eq_true, if_true]
    exact ih (i + 1) _ _

theorem foldl_map_sep (α : Type) (f : α → String) (sep : String) (l : List α) (acc : String) :
    l.foldl (fun acc c => acc ++ sep ++ f c) acc
      = (l.map f).foldl (fun acc a => acc ++ sep ++ a) acc := by
  induction l generalizing acc with
  | nil => rfl
  | cons a as ih => simp only [List.foldl_cons, List.map_cons, ih]

theorem pipeline_loop_zero (upper : Char → Char) (cmds : List (String × List String)) :
    BeforeProcessPipeline.loop upper 0 (cmds.map (fun c => Cmder.ofStrings c.1 c.2)) "" ""
      = .ok (String.intercalate ", " (cmds.map (fun c => spanNameOf upper ⟨c.1, []⟩)),
             String.intercalate ", " (cmds.map (fun c => statementOf upper c.1 c.2))) := by
  cases cmds with
  | nil => rfl
  | cons c cs =>
    simp only [List.map_cons]
    rw [BeforeProcessPipeline.loop, getCmdDetails_ofStrings]
    simp only [ne_eq, not_true_eq_false, if_false, String.empty_append]
    rw [pipeline_loop_succ]
    simp only [String.intercalate, intercalate_go_eq_foldl]
    rw [foldl_map_sep (String × List String) (fun c => spanNameOf upper ⟨c.1, []⟩),
      foldl_map_sep (String × List String) (fun c => statementOf upper c.1 c.2)]

/-- C10: for a Redis command whose arguments are all strings, `getCmdDetails`
returns normally; the name is the upper-cased command name, or `(empty command)`
when the command name is empty; the statement is the arguments joined by single
spaces with the first argument upper-cased and surrounding white space trimmed,
or, without arguments, `(empty args)` when the name is not `PING` and the empty
string when it is. -/
theorem getCmdDetails_of_string_args (upper : Char → Char) (name : String)
    (args : List String) :
    getCmdDetails upper ⟨name, args.map Arg.str⟩
      = .ok (if name = "" then "(empty command)" else strings.ToUpper upper name,
          match args with
          | [] =>
            if (if name = "" then "(empty command)" else strings.ToUpper upper name) = "PING"
            then "" else "(empty args)"
          | a :: rest =>
            strings.TrimSpace (String.intercalate " " (strings.ToUpper upper a :: rest))) := by
  have h := getCmdDetails_ofStrings upper name args
  simp only [Cmder.ofStrings, spanNameOf, statementOf] at h
  rw [h]

/-- C2: on the command `SET key 42`, whose third argument is an integer, the type
assertion `arg.(string)` of `getCmdDetails` panics, whatever the upper-casing
is, and the panic leaves `BeforeProcess` and `BeforeProcessPipeline` before
they return: no `(ctx, nil)` is returned to the traced call. -/
theorem getCmdDetails_panics_on_int_arg (upper : Char → Char) (ctx : Context) :
    getCmdDetails upper setIntCmd = .error (.typeAssertion "int64")
      ∧ BeforeProcess upper ctx setIntCmd = .error (.typeAssertion "int64")
      ∧ BeforeProcessPipeline upper ctx [setIntCmd] = .error (.typeAssertion "int64") :=
  ⟨rfl, rfl, rfl⟩

/-- C5 (failing input): for the pipeline `GET key`, `SET key 42` the hook panics
in `getCmdDetails` on the integer argument before `apm.StartSpan` is reached, so
no span is started for this list of commands. -/
theorem BeforeProcessPipeline_panics_on_int_arg (upper : Char → Char) (ctx : Context) :
    BeforeProcessPipeline upper ctx [getCmd, setIntCmd] = .error (.typeAssertion "int64") :=
  rfl

/-- For a list of commands whose arguments are all strings,
`BeforeProcessPipeline` returns a nil error and starts exactly one span, of type
`db.redis.query`; its name is the names of the commands joined with `", "` in
the order of the list, and its statement the statements joined the same way. -/
theorem BeforeProcessPipeline_of_string_args (upper : Char → Char) (ctx : Context)
    (cmds : List (String × List String)) :
    BeforeProcessPipeline upper ctx (cmds.map (fun c => Cmder.ofStrings c.1 c.2))
      = .ok (⟨⟨String.intercalate ", " (cmds.map (fun c => spanNameOf upper ⟨c.1, []⟩)),
                "db.redis.query",
                some ⟨"redis",
                  String.intercalate ", " (cmds.map (fun c => statementOf upper c.1 c.2))⟩⟩
              :: ctx.spans⟩, none) := by
  unfold BeforeProcessPipeline
  rw [pipeline_loop_zero]
  rfl

end apmgoredisv8
/-! ## Theorems: the MongoDB command monitor -/

theorem string_append_right_cancel (a b n : String) (h : a ++ n = b ++ n) : a = b := by
  have hd : (a ++ n).data = (b ++ n).data := by rw [h]
  rw [String.data_append, String.data_append] at hd
  exact String.ext (List.append_cancel_right hd)

theorem string_append_dot_ne (c n : String) : c ++ "." ++ n ≠ n := by
  intro h
  have hl : (c ++ "." ++ n).data.length = n.data.length := by rw [h]
  rw [String.data_append, String.data_append] at hl
  simp at hl
  omega

theorem len_pos_iff (s : String) : len s > 0 ↔ s ≠ "" := by
  cases s with
  | mk data =>
    cases data with
    | nil => simp [len, String.utf8ByteSize, String.utf8ByteSize.go]
    | cons c cs =>
      have hc := Char.utf8Size_pos c
      have hne : (⟨c :: cs⟩ : String) ≠ "" := by
        intro h
        have hd : (⟨c :: cs⟩ : String).data = [] := by rw [h]
        exact absurd hd (by simp)
      simp only [len, String.utf8ByteSize, String.utf8ByteSize.go, gt_iff_lt, ne_eq]
      constructor
      · intro _; exact hne
      · intro _; omega

namespace apmmongo

theorem collectionName_eq (commandName : String) (command : Raw) :
    collectionName commandName command
      = if commandName ∈ allowList then
          (command.Lookup (collectionKey commandName)).StringValueOK
        else ("", false) := by
  unfold collectionName
  split <;> simp_all [allowList, collectionKey]

theorem started_tracer_started (c : commandMonitor) (t : Tracer) (ctx : Context)
    (event : CommandStartedEvent) :
    (started c t ctx event).2.started
      = t.started ++ [⟨t.started.length, spanNameSpec event.CommandName event.Command,
          "db.mongodb.query", ctx.dropsSpan⟩] := by
  have hname : (match collectionName event.CommandName event.Command with
      | (collectionName, true) => collectionName ++ "." ++ event.CommandName
      | (_, false) => event.CommandName)
      = spanNameSpec event.CommandName event.Command := by
    rw [collectionName_eq]
    unfold spanNameSpec
    by_cases hm : event.CommandName ∈ allowList
    · simp only [hm, if_true]
      cases event.Command.Lookup (collectionKey event.CommandName) <;> rfl
    · simp only [hm, if_false]
  unfold started
  simp only [hname, Tracer.StartSpan]
  by_cases hd : ctx.dropsSpan = true
  · simp [hd]
  · simp [hd, Tracer.SetDatabase]

theorem spanNameSpec_qualified (commandName : String) (command : Raw) (collection : String) :
    spanNameSpec commandName command = collection ++ "." ++ commandName
      ↔ (commandName ∈ allowList
          ∧ command.Lookup (collectionKey commandName) = .string collection) := by
  unfold spanNameSpec
  by_cases hm : commandName ∈ allowList
  · simp only [hm, if_true, true_and]
    cases hv : command.Lookup (collectionKey commandName) with
    | string s =>
      simp only [Value.string.injEq]
      constructor
      · intro h
        rw [String.append_assoc, String.append_assoc] at h
        exact string_append_right_cancel _ _ _ h
      · intro h; rw [h]
    | document d =>
      simp only [reduceCtorEq, iff_false]
      exact fun h => string_append_dot_ne _ _ h.symm
    | array a ok =>
      simp only [reduceCtorEq, iff_false]
      exact fun h => string_append_dot_ne _ _ h.symm
    | other ty n =>
      simp only [reduceCtorEq, iff_false]
      exact fun h => string_append_dot_ne _ _ h.symm
  · simp only [hm, if_false, false_and, iff_false]
    exact fun h => string_append_dot_ne _ _ h.symm

theorem spanNameSpec_bare (commandName : String) (command : Raw) :
    spanNameSpec commandName command = commandName
      ↔ ¬ ∃ collection, commandName ∈ allowList
          ∧ command.Lookup (collectionKey commandName) = .string collection := by
  unfold spanNameSpec
  by_cases hm : commandName ∈ allowList
  · simp only [hm, if_true, true_and]
    cases hv : command.Lookup (collectionKey commandName) with
    | string s =>
      simp only [Value.string.injEq, exists_eq', not_true_eq_false, iff_false]
      exact string_append_dot_ne _ _
    | document d => simp
    | array a ok => simp
    | other ty n => simp
  · simp [hm]

/-- C7: the span `started` opens is named `<collection>.<commandName>` exactly
when the command name is in the allow-list of `collectionName` and the command
document holds the string `<collection>` under the key equal to the command name
(under `collection` for `getMore`); in every other case its name is the bare
command name. -/
theorem started_span_name (c : commandMonitor) (t : Tracer) (ctx : Context)
    (event : CommandStartedEvent) :
    ∃ spanName,
      (started c t ctx event).2.started
        = t.started ++ [⟨t.started.length, spanName, "db.mongodb.query", ctx.dropsSpan⟩]
      ∧ (∀ collection, spanName = collection ++ "." ++ event.CommandName
          ↔ (event.CommandName ∈ allowList
              ∧ event.Command.Lookup (collectionKey event.CommandName) = .string collection))
      ∧ (spanName = event.CommandName
          ↔ ¬ ∃ collection, event.CommandName ∈ allowList
              ∧ event.Command.Lookup (collectionKey event.CommandName) = .string collection) :=
  ⟨spanNameSpec event.CommandName event.Command, started_tracer_started c t ctx event,
    spanNameSpec_qualified _ _, spanNameSpec_bare _ _⟩

end apmmongo

namespace apmmongo

theorem foldl_sep_ne_empty (l : List String) (acc : String) (h : acc ≠ "" ∨ l ≠ []) :
    l.foldl (fun acc m => acc ++ ", " ++ m) acc ≠ "" := by
  induction l generalizing acc with
  | nil =>
    rcases h with h | h
    · exact h
    · exact absurd rfl h
  | cons m ms ih =>
    simp only [List.foldl_cons]
    apply ih
    left
    intro hc
    have hl : (acc ++ ", " ++ m).data.length = 0 := by rw [hc]; rfl
    rw [String.data_append, String.data_append] at hl
    simp at hl

theorem getWriteErrors_loop_cons (i : Nat) (v : Value) (vals : List Value) (we : String) :
    getWriteErrors.loop i (v :: vals) we
      = getWriteErrors.loop (i + 1) vals
          (match errmsgOf v with
            | some m => if i ≠ 0 then we ++ ", " ++ m else we ++ m
            | none => we) := by
  rw [getWriteErrors.loop]
  congr 1
  cases v with
  | document doc =>
    simp only [Value.DocumentOK, errmsgOf]
    cases lookup "errmsg" doc with
    | string s =>
      simp only [Value.StringValueOK, true_and]
      by_cases hs : s = ""
      · subst hs
        have hl : ¬ len "" > 0 := by decide
        simp only [hl, if_true, if_false]
      · have hl : len s > 0 := (len_pos_iff s).2 hs
        simp only [hl, hs, if_true, if_false]
    | document d => simp [Value.StringValueOK]
    | array a ok => simp [Value.StringValueOK]
    | other ty n => simp [Value.StringValueOK]
  | string s => rfl
  | array a ok => rfl
  | other ty n => rfl

theorem getWriteErrors_loop_succ (i : Nat) (vals : List Value) (we : String) :
    getWriteErrors.loop (i + 1) vals we
      = (errmsgs vals).foldl (fun acc m => acc ++ ", " ++ m) we := by
  induction vals generalizing i we with
  | nil => rfl
  | cons v vs ih =>
    rw [getWriteErrors_loop_cons, ih]
    unfold errmsgs
    cases hv : errmsgOf v with
    | none => simp [List.filterMap_cons, hv]
    | some m => simp [List.filterMap_cons, hv]

/-- The message `getWriteErrors` builds from the array: the joined messages when
the first element of the array contributes one, and otherwise the joined
messages of the later elements behind a leading separator. -/
theorem getWriteErrors_loop_zero (v : Value) (vals : List Value) :
    getWriteErrors.loop 0 (v :: vals) ""
      = match errmsgOf v with
        | some _ => String.intercalate ", " (errmsgs (v :: vals))
        | none =>
          if errmsgs vals = [] then ""
          else ", " ++ String.intercalate ", " (errmsgs vals) := by
  rw [getWriteErrors_loop_cons, getWriteErrors_loop_succ]
  cases hv : errmsgOf v with
  | some m =>
    simp only [ne_eq, not_true_eq_false, if_false, String.empty_append]
    simp only [errmsgs, List.filterMap_cons, hv, String.intercalate, intercalate_go_eq_foldl]
  | none =>
    simp only
    cases hm : errmsgs vals with
    | nil => rfl
    | cons m ms =>
      simp only [List.foldl_cons, String.empty_append, if_false, String.intercalate,
        intercalate_go_eq_foldl, reduceCtorEq]
      exact foldl_sep_append ", " ", " ms m

theorem getWriteErrors_loop_ne_empty (vals : List Value) :
    getWriteErrors.loop 0 vals "" ≠ "" ↔ errmsgs vals ≠ [] := by
  cases vals with
  | nil => simp [getWriteErrors.loop, errmsgs]
  | cons v vs =>
    rw [getWriteErrors_loop_cons, getWriteErrors_loop_succ]
    cases hv : errmsgOf v with
    | none =>
      simp only [errmsgs, List.filterMap_cons, hv]
      constructor
      · intro h hc
        rw [show List.filterMap errmsgOf vs = [] from hc] at h
        exact h rfl
      · intro h
        exact foldl_sep_ne_empty _ _ (Or.inr h)
    | some m =>
      have hm : m ≠ "" := by
        intro hc
        subst hc
        cases v with
        | document doc =>
          simp only [errmsgOf] at hv
          split at hv
          · split at hv <;> simp_all
          · simp at hv
        | string s => simp [errmsgOf] at hv
        | array a ok => simp [errmsgOf] at hv
        | other ty n => simp [errmsgOf] at hv
      simp only [errmsgs, List.filterMap_cons, hv, ne_eq, not_true_eq_false, if_false,
        String.empty_append, reduceCtorEq, not_false_eq_true, iff_true]
      exact foldl_sep_ne_empty _ _ (Or.inl hm)

theorem getWriteErrors_of_array (event : CommandSucceededEvent) (vals : List Value)
    (h : event.Reply.Lookup "writeErrors" = .array vals true) :
    getWriteErrors event
      = if errmsgs vals = [] then (false, none)
        else (true, some (getWriteErrors.loop 0 vals "")) := by
  unfold getWriteErrors
  simp only [h, Value.hasData, Value.ArrayOK, Values, if_true]
  by_cases he : errmsgs vals = []
  · have hl : ¬ len (getWriteErrors.loop 0 vals "") > 0 := by
      rw [len_pos_iff, getWriteErrors_loop_ne_empty]
      exact fun hc => hc he
    simp only [hl, he, if_true, if_false]
  · have hl : len (getWriteErrors.loop 0 vals "") > 0 := by
      rw [len_pos_iff, getWriteErrors_loop_ne_empty]
      exact he
    simp only [hl, he, if_true, if_false]

/-- For a reply whose `writeErrors` value is a well-formed array, `getWriteErrors` reports
an error exactly when some document of the array has a non-empty string
`errmsg`; when the first element of the array has one, the message is the
messages joined with `", "` in array order. -/
theorem getWriteErrors_array_report (event : CommandSucceededEvent) (vals : List Value)
    (h : event.Reply.Lookup "writeErrors" = .array vals true) :
    ((getWriteErrors event).1 = true ↔ errmsgs vals ≠ [])
      ∧ (∀ v rest m, vals = v :: rest → errmsgOf v = some m →
          getWriteErrors event = (true, some (String.intercalate ", " (errmsgs vals)))) := by
  rw [getWriteErrors_of_array event vals h]
  constructor
  · by_cases he : errmsgs vals = [] <;> simp [he]
  · intro v rest m hv hm
    subst hv
    have he : errmsgs (v :: rest) ≠ [] := by simp [errmsgs, List.filterMap_cons, hm]
    rw [getWriteErrors_loop_zero]
    simp only [he, if_false, hm]

/-- C9 (failing input): for the reply `replySecondErrmsg`, whose `writeErrors`
array holds a document without `errmsg` followed by one with `errmsg` "boom",
`getWriteErrors` returns the message ", boom", which begins with the separator,
while the non-empty `errmsg` values joined with ", " are "boom". -/
theorem getWriteErrors_leading_separator :
    (insertSucceeded replySecondErrmsg).Reply.Lookup "writeErrors"
        = .array [.document [("index", .other 16 4), ("code", .other 16 4)],
                  .document [("index", .other 16 4), ("errmsg", .string "boom")]] true
      ∧ getWriteErrors (insertSucceeded replySecondErrmsg) = (true, some ", boom")
      ∧ String.intercalate ", "
          (errmsgs [.document [("index", .other 16 4), ("code", .other 16 4)],
                    .document [("index", .other 16 4), ("errmsg", .string "boom")]])
          = "boom" :=
  ⟨rfl, by decide, by decide⟩

end apmmongo

namespace apmmongo

theorem lookup_mem (key : String) (l : List (String × Value)) (v : Value)
    (h : lookup key l = v) (hv : ∀ ty n, v ≠ .other ty n) : (key, v) ∈ l := by
  induction l with
  | nil =>
    simp only [lookup, Value.zero] at h
    exact absurd h.symm (hv 0 0)
  | cons e es ih =>
    obtain ⟨k, w⟩ := e
    simp only [lookup] at h
    by_cases hk : k = key
    · simp only [hk, if_true] at h
      simp [hk, h]
    · simp only [hk, if_false] at h
      exact List.mem_cons_of_mem _ (ih h)

theorem getWriteErrors_true (event : CommandSucceededEvent)
    (h : (getWriteErrors event).1 = true) : ∃ m, getWriteErrors event = (true, some m) := by
  cases hv : event.Reply.Lookup "writeErrors" with
  | array vals valid =>
    cases valid with
    | false => simp [getWriteErrors, hv, Value.hasData, Value.ArrayOK, Values] at h
    | true =>
      rw [getWriteErrors_of_array event vals hv] at h ⊢
      by_cases he : errmsgs vals = []
      · simp [he] at h
      · exact ⟨_, by simp only [he, if_false]; rfl⟩
  | string s => simp [getWriteErrors, hv, Value.hasData, Value.ArrayOK] at h
  | document d => simp [getWriteErrors, hv, Value.hasData, Value.ArrayOK] at h
  | other ty n =>
    by_cases hn : 0 < n <;> simp [getWriteErrors, hv, Value.hasData, Value.ArrayOK, hn] at h

theorem getWriteConcernError_true (event : CommandSucceededEvent)
    (h : (getWriteConcernError event).1 = true) :
    ∃ m, getWriteConcernError event = (true, some m) := by
  cases hv : event.Reply.Lookup "writeConcernError" with
  | document d =>
    simp only [getWriteConcernError, hv, Value.hasData, Value.DocumentOK, if_true] at h ⊢
    by_cases hc : (lookup "errmsg" d).StringValueOK.2 = true
        ∧ len (lookup "errmsg" d).StringValueOK.1 > 0
    · exact ⟨_, by simp only [hc, and_self, if_true]; rfl⟩
    · simp only [hc, if_false] at h
      simp at h
  | string s => simp [getWriteConcernError, hv, Value.hasData, Value.DocumentOK] at h
  | array a ok => simp [getWriteConcernError, hv, Value.hasData, Value.DocumentOK] at h
  | other ty n =>
    by_cases hn : 0 < n <;>
      simp [getWriteConcernError, hv, Value.hasData, Value.DocumentOK, hn] at h

theorem getWriteErrors_of_errmsg (event : CommandSucceededEvent) (vals : List Value)
    (d : List (String × Value)) (m : String)
    (h : event.Reply.Lookup "writeErrors" = .array vals true) (hd : .document d ∈ vals)
    (hm : lookup "errmsg" d = .string m) (hne : m ≠ "") :
    (getWriteErrors event).1 = true := by
  rw [getWriteErrors_of_array event vals h]
  have he : errmsgs vals ≠ [] := by
    intro hc
    have hmem : m ∈ errmsgs vals := by
      unfold errmsgs
      rw [List.mem_filterMap]
      exact ⟨_, hd, by simp [errmsgOf, hm, hne]⟩
    rw [hc] at hmem
    exact absurd hmem (List.not_mem_nil _)
  simp [he]

theorem getWriteConcernError_of_errmsg (event : CommandSucceededEvent)
    (d : List (String × Value)) (m : String)
    (h : event.Reply.Lookup "writeConcernError" = .document d)
    (hm : lookup "errmsg" d = .string m) (hne : m ≠ "") :
    getWriteConcernError event = (true, some m) := by
  have hl : len m > 0 := (len_pos_iff m).2 hne
  simp [getWriteConcernError, h, Value.hasData, Value.DocumentOK, hm, Value.StringValueOK, hl]

theorem getErrMsg_loop_none (event : CommandSucceededEvent) (l : List (String × Value))
    (h : ∀ e ∈ l, e.1 ≠ "errmsg" ∧ e.1 ≠ "writeErrors" ∧ e.1 ≠ "writeConcernError") :
    getErrMsg.loop event l = none := by
  induction l with
  | nil => rfl
  | cons e es ih =>
    obtain ⟨k, v⟩ := e
    have hk := h (k, v) (List.mem_cons_self _ _)
    simp only [getErrMsg.loop, hk.1, hk.2.1, hk.2.2, if_false]
    exact ih (fun e he => h e (List.mem_cons_of_mem _ he))

theorem getErrMsg_loop_hit (event : CommandSucceededEvent) (l : List (String × Value))
    (h : ∃ e ∈ l, (e.1 = "errmsg" ∧ ∃ s, e.2 = .string s)
        ∨ (e.1 = "writeErrors" ∧ (getWriteErrors event).1 = true)
        ∨ (e.1 = "writeConcernError" ∧ (getWriteConcernError event).1 = true)) :
    ∃ err, getErrMsg.loop event l = some (true, some err) := by
  induction l with
  | nil =>
    obtain ⟨e, he, _⟩ := h
    exact absurd he (List.not_mem_nil _)
  | cons e es ih =>
    obtain ⟨k, v⟩ := e
    have htail : (∃ e ∈ es, (e.1 = "errmsg" ∧ ∃ s, e.2 = .string s)
        ∨ (e.1 = "writeErrors" ∧ (getWriteErrors event).1 = true)
        ∨ (e.1 = "writeConcernError" ∧ (getWriteConcernError event).1 = true))
        ∨ ((k = "errmsg" ∧ ∃ s, v = .string s)
        ∨ (k = "writeErrors" ∧ (getWriteErrors event).1 = true)
        ∨ (k = "writeConcernError" ∧ (getWriteConcernError event).1 = true)) := by
      obtain ⟨e, he, hp⟩ := h
      rcases List.mem_cons.1 he with heq | hmem
      · right
        subst heq
        exact hp
      · left
        exact ⟨e, hmem, hp⟩
    rw [getErrMsg.loop]
    by_cases h1 : k = "errmsg"
    · simp only [h1, if_true]
      cases v with
      | string s => exact ⟨s, rfl⟩
      | document d =>
        simp only [Value.StringValueOK]
        rcases htail with ht | ht
        · exact ih ht
        · simp [h1] at ht
      | array a ok =>
        simp only [Value.StringValueOK]
        rcases htail with ht | ht
        · exact ih ht
        · simp [h1] at ht
      | other ty n =>
        simp only [Value.StringValueOK]
        rcases htail with ht | ht
        · exact ih ht
        · simp [h1] at ht
    · simp only [h1, if_false]
      by_cases h2 : k = "writeErrors"
      · simp only [h2, if_true]
        by_cases hw : (getWriteErrors event).1 = true
        · obtain ⟨m, hm⟩ := getWriteErrors_true event hw
          rw [hm]
          exact ⟨m, rfl⟩
        · have hw2 : getWriteErrors event = (false, (getWriteErrors event).2) := by
            rw [Bool.not_eq_true] at hw
            rw [← hw]
          rw [hw2]
          simp only
          rcases htail with ht | ht
          · exact ih ht
          · simp [h2, hw] at ht
      · simp only [h2, if_false]
        by_cases h3 : k = "writeConcernError"
        · simp only [h3, if_true]
          by_cases hw : (getWriteConcernError event).1 = true
          · obtain ⟨m, hm⟩ := getWriteConcernError_true event hw
            rw [hm]
            exact ⟨m, rfl⟩
          · have hw2 : getWriteConcernError event
                = (false, (getWriteConcernError event).2) := by
              rw [Bool.not_eq_true] at hw
              rw [← hw]
            rw [hw2]
            simp only
            rcases htail with ht | ht
            · exact ih ht
            · simp [h3, hw] at ht
        · simp only [h3, if_false]
          rcases htail with ht | ht
          · exact ih ht
          · simp [h1, h2, h3] at ht

end apmmongo

namespace apmmongo

theorem getErrMsg_of_hit (event : CommandSucceededEvent) (hvalid : event.Reply.valid = true)
    (h : ∃ e ∈ event.Reply.elems, (e.1 = "errmsg" ∧ ∃ s, e.2 = .string s)
        ∨ (e.1 = "writeErrors" ∧ (getWriteErrors event).1 = true)
        ∨ (e.1 = "writeConcernError" ∧ (getWriteConcernError event).1 = true)) :
    ∃ err, getErrMsg event = (true, some err) := by
  obtain ⟨err, herr⟩ := getErrMsg_loop_hit event event.Reply.elems h
  exact ⟨err, by simp [getErrMsg, Raw.Elements, hvalid, herr]⟩

theorem getErrMsg_of_none (event : CommandSucceededEvent)
    (h : event.Reply.valid = false
      ∨ ∀ e ∈ event.Reply.elems,
          e.1 ≠ "errmsg" ∧ e.1 ≠ "writeErrors" ∧ e.1 ≠ "writeConcernError") :
    getErrMsg event = (false, none) := by
  by_cases hvalid : event.Reply.valid = true
  · rcases h with h | h
    · rw [h] at hvalid
      exact absurd hvalid (by decide)
    · simp [getErrMsg, Raw.Elements, hvalid, getErrMsg_loop_none event _ h]
  · simp [getErrMsg, Raw.Elements, hvalid]

theorem finished_of_lookup (c : commandMonitor) (t : Tracer) (ctx : Context)
    (event : CommandFinishedEvent) (err : Option String) (span : Span)
    (h : mapLookup ⟨event.ConnectionID, event.RequestID⟩ c.spans = some span) :
    finished c t ctx event err
      = ({ c with spans := mapDelete ⟨event.ConnectionID, event.RequestID⟩ c.spans },
          (match err with
            | some e => t.CaptureErrorSend span e
            | none => t).End span) := by
  simp only [finished, h]

theorem finished_none_errors (c : commandMonitor) (t : Tracer) (ctx : Context)
    (event : CommandFinishedEvent) :
    (finished c t ctx event none).2.errors = t.errors := by
  cases h : mapLookup ⟨event.ConnectionID, event.RequestID⟩ c.spans with
  | none => simp only [finished, h]
  | some span =>
    rw [finished_of_lookup c t ctx event none span h]
    rfl

theorem errmsgOf_some (v : Value) (m : String) (h : errmsgOf v = some m) :
    ∃ d, v = .document d ∧ lookup "errmsg" d = .string m ∧ m ≠ "" := by
  cases v with
  | document d =>
    refine ⟨d, rfl, ?_⟩
    simp only [errmsgOf] at h
    cases hl : lookup "errmsg" d with
    | string s =>
      rw [hl] at h
      simp only at h
      by_cases hs : s = ""
      · simp [hs] at h
      · simp only [hs, if_false, Option.some.injEq] at h
        subst h
        exact ⟨rfl, hs⟩
    | document d2 => simp [hl] at h
    | array a ok => simp [hl] at h
    | other ty n => simp [hl] at h
  | string s => simp [errmsgOf] at h
  | array a ok => simp [errmsgOf] at h
  | other ty n => simp [errmsgOf] at h

theorem getWriteErrors_true_data (event : CommandSucceededEvent)
    (h : (getWriteErrors event).1 = true) :
    ∃ vals d m, event.Reply.Lookup "writeErrors" = .array vals true ∧ .document d ∈ vals
      ∧ lookup "errmsg" d = .string m ∧ m ≠ "" := by
  cases hv : event.Reply.Lookup "writeErrors" with
  | array vals valid =>
    cases valid with
    | false => simp [getWriteErrors, hv, Value.hasData, Value.ArrayOK, Values] at h
    | true =>
      rw [getWriteErrors_of_array event vals hv] at h
      by_cases he : errmsgs vals = []
      · simp [he] at h
      · obtain ⟨m, hm⟩ := List.exists_mem_of_ne_nil _ he
        unfold errmsgs at hm
        rw [List.mem_filterMap] at hm
        obtain ⟨v, hvmem, hvm⟩ := hm
        obtain ⟨d, hd, hl, hne⟩ := errmsgOf_some v m hvm
        subst hd
        exact ⟨vals, d, m, rfl, hvmem, hl, hne⟩
  | string s => simp [getWriteErrors, hv, Value.hasData, Value.ArrayOK] at h
  | document d => simp [getWriteErrors, hv, Value.hasData, Value.ArrayOK] at h
  | other ty n =>
    by_cases hn : 0 < n <;> simp [getWriteErrors, hv, Value.hasData, Value.ArrayOK, hn] at h

theorem getWriteConcernError_true_data (event : CommandSucceededEvent)
    (h : (getWriteConcernError event).1 = true) :
    ∃ d m, event.Reply.Lookup "writeConcernError" = .document d
      ∧ lookup "errmsg" d = .string m ∧ m ≠ "" := by
  cases hv : event.Reply.Lookup "writeConcernError" with
  | document d =>
    simp only [getWriteConcernError, hv, Value.hasData, Value.DocumentOK, if_true] at h
    cases hl : lookup "errmsg" d with
    | string s =>
      rw [hl] at h
      simp only [Value.StringValueOK, true_and] at h
      by_cases hs : len s > 0
      · exact ⟨d, s, rfl, hl, (len_pos_iff s).1 hs⟩
      · simp [hs] at h
    | document d2 => simp [hl, Value.StringValueOK] at h
    | array a ok => simp [hl, Value.StringValueOK] at h
    | other ty n => simp [hl, Value.StringValueOK] at h
  | string s => simp [getWriteConcernError, hv, Value.hasData, Value.DocumentOK] at h
  | array a ok => simp [getWriteConcernError, hv, Value.hasData, Value.DocumentOK] at h
  | other ty n =>
    by_cases hn : 0 < n <;>
      simp [getWriteConcernError, hv, Value.hasData, Value.DocumentOK, hn] at h

theorem getErrMsg_loop_no_hit (event : CommandSucceededEvent) (l : List (String × Value))
    (h : ∀ e ∈ l, ¬ ((e.1 = "errmsg" ∧ ∃ s, e.2 = .string s)
        ∨ (e.1 = "writeErrors" ∧ (getWriteErrors event).1 = true)
        ∨ (e.1 = "writeConcernError" ∧ (getWriteConcernError event).1 = true))) :
    getErrMsg.loop event l = none := by
  induction l with
  | nil => rfl
  | cons e es ih =>
    obtain ⟨k, v⟩ := e
    have hhead := h (k, v) (List.mem_cons_self _ _)
    have htail := ih (fun e he => h e (List.mem_cons_of_mem _ he))
    rw [getErrMsg.loop]
    by_cases h1 : k = "errmsg"
    · simp only [h1, if_true]
      cases v with
      | string s => exact absurd (Or.inl ⟨h1, s, rfl⟩) hhead
      | document d => exact htail
      | array a ok => exact htail
      | other ty n => exact htail
    · simp only [h1, if_false]
      by_cases h2 : k = "writeErrors"
      · simp only [h2, if_true]
        have hw : ¬ (getWriteErrors event).1 = true :=
          fun hc => hhead (Or.inr (Or.inl ⟨h2, hc⟩))
        have hw2 : getWriteErrors event = (false, (getWriteErrors event).2) := by
          rw [Bool.not_eq_true] at hw
          rw [← hw]
        rw [hw2]
        exact htail
      · simp only [h2, if_false]
        by_cases h3 : k = "writeConcernError"
        · simp only [h3, if_true]
          have hw : ¬ (getWriteConcernError event).1 = true :=
            fun hc => hhead (Or.inr (Or.inr ⟨h3, hc⟩))
          have hw2 : getWriteConcernError event
              = (false, (getWriteConcernError event).2) := by
            rw [Bool.not_eq_true] at hw
            rw [← hw]
          rw [hw2]
          exact htail
        · simp only [h3, if_false]
          exact htail

theorem getErrMsg_of_hasErrorMessage (event : CommandSucceededEvent)
    (h : hasErrorMessage event.Reply) : ∃ err, getErrMsg event = (true, some err) := by
  obtain ⟨hvalid, h⟩ := h
  apply getErrMsg_of_hit event hvalid
  rcases h with ⟨s, hs⟩ | ⟨vals, d, m, hl, hd, hm, hne⟩ | ⟨d, m, hl, hm, hne⟩
  · exact ⟨_, hs, Or.inl ⟨rfl, s, rfl⟩⟩
  · have hmem := lookup_mem "writeErrors" event.Reply.elems _ hl (by intro ty n hc; cases hc)
    exact ⟨_, hmem,
      Or.inr (Or.inl ⟨rfl, getWriteErrors_of_errmsg event vals d m hl hd hm hne⟩)⟩
  · have hmem := lookup_mem "writeConcernError" event.Reply.elems _ hl
      (by intro ty n hc; cases hc)
    refine ⟨_, hmem, Or.inr (Or.inr ⟨rfl, ?_⟩)⟩
    rw [getWriteConcernError_of_errmsg event d m hl hm hne]

theorem getErrMsg_of_not_hasErrorMessage (event : CommandSucceededEvent)
    (h : ¬ hasErrorMessage event.Reply) : getErrMsg event = (false, none) := by
  by_cases hvalid : event.Reply.valid = true
  · have hno : getErrMsg.loop event event.Reply.elems = none := by
      apply getErrMsg_loop_no_hit
      intro e he hc
      apply h
      refine ⟨hvalid, ?_⟩
      rcases hc with ⟨hk, s, hs⟩ | ⟨_, hw⟩ | ⟨_, hw⟩
      · left
        refine ⟨s, ?_⟩
        have : e = ("errmsg", Value.string s) := by
          cases e
          simp_all
        rw [← this]
        exact he
      · right
        left
        exact getWriteErrors_true_data event hw
      · right
        right
        exact getWriteConcernError_true_data event hw
    simp [getErrMsg, Raw.Elements, hvalid, hno]
  · simp [getErrMsg, Raw.Elements, hvalid]

theorem finished_of_none (c : commandMonitor) (t : Tracer) (ctx : Context)
    (event : CommandFinishedEvent) (err : Option String)
    (h : mapLookup ⟨event.ConnectionID, event.RequestID⟩ c.spans = none) :
    finished c t ctx event err = (c, t) := by
  simp only [finished, h]

end apmmongo

namespace apmmongo

theorem mem_mapInsert (key : commandKey) (span : Span) (m : List (commandKey × Span))
    (e : commandKey × Span) :
    e ∈ mapInsert key span m ↔ e = (key, span) ∨ (e ∈ m ∧ e.1 ≠ key) := by
  simp [mapInsert, List.mem_filter]

theorem mem_mapDelete (key : commandKey) (m : List (commandKey × Span))
    (e : commandKey × Span) :
    e ∈ mapDelete key m ↔ e ∈ m ∧ e.1 ≠ key := by
  simp [mapDelete, List.mem_filter]

theorem mapLookup_mem (key : commandKey) (m : List (commandKey × Span)) (span : Span)
    (h : mapLookup key m = some span) : (key, span) ∈ m := by
  unfold mapLookup at h
  cases hf : m.find? (fun e => e.1 = key) with
  | none => simp [hf] at h
  | some e =>
    simp only [hf, Option.map_some', Option.some.injEq] at h
    have hp := List.find?_some hf
    have hm := List.mem_of_find?_eq_some hf
    simp only [decide_eq_true_eq] at hp
    have he : e = (key, span) := by
      cases e
      simp_all
    rw [← he]
    exact hm

theorem mapLookup_none (key : commandKey) (m : List (commandKey × Span)) :
    mapLookup key m = none ↔ ∀ e ∈ m, e.1 ≠ key := by
  simp [mapLookup, List.find?_eq_none]

theorem mapDelete_of_none (key : commandKey) (m : List (commandKey × Span))
    (h : mapLookup key m = none) : mapDelete key m = m := by
  rw [mapLookup_none] at h
  unfold mapDelete
  rw [List.filter_eq_self]
  intro e he
  simp [h e he]

theorem mapLookup_mapInsert_self (key : commandKey) (span : Span)
    (m : List (commandKey × Span)) : mapLookup key (mapInsert key span m) = some span := by
  simp [mapLookup, mapInsert]

theorem mapLookup_mapDelete_self (key : commandKey) (m : List (commandKey × Span)) :
    mapLookup key (mapDelete key m) = none := by
  rw [mapLookup_none]
  intro e he
  exact ((mem_mapDelete key m e).1 he).2

theorem find_filter_ne (key other : commandKey) (m : List (commandKey × Span))
    (h : other ≠ key) :
    (m.filter (fun e => e.1 ≠ other)).find? (fun e => e.1 = key)
      = m.find? (fun e => e.1 = key) := by
  induction m with
  | nil => rfl
  | cons e es ih =>
    by_cases h1 : e.1 = other
    · have h2 : ¬ e.1 = key := fun hc => h (h1.symm.trans hc)
      have f1 : ¬ (decide (e.1 ≠ other) = true) := by simpa using h1
      have f2 : ¬ (decide (e.1 = key) = true) := by simpa using h2
      rw [@List.filter_cons_of_neg _ (fun e => decide (e.1 ≠ other)) e es f1,
        @List.find?_cons_of_neg _ (fun e => decide (e.1 = key)) e es f2, ih]
    · have f1 : decide (e.1 ≠ other) = true := by simpa using h1
      rw [@List.filter_cons_of_pos _ (fun e => decide (e.1 ≠ other)) e es f1]
      by_cases h2 : e.1 = key
      · have f2 : decide (e.1 = key) = true := by simpa using h2
        rw [@List.find?_cons_of_pos _ (fun e => decide (e.1 = key)) e _ f2,
          @List.find?_cons_of_pos _ (fun e => decide (e.1 = key)) e _ f2]
      · have f2 : ¬ (decide (e.1 = key) = true) := by simpa using h2
        rw [@List.find?_cons_of_neg _ (fun e => decide (e.1 = key)) e _ f2,
          @List.find?_cons_of_neg _ (fun e => decide (e.1 = key)) e _ f2, ih]

theorem mapLookup_mapDelete_ne (key other : commandKey) (m : List (commandKey × Span))
    (h : other ≠ key) : mapLookup key (mapDelete other m) = mapLookup key m := by
  unfold mapLookup mapDelete
  rw [find_filter_ne key other m h]

theorem mapLookup_mapInsert_ne (key other : commandKey) (span : Span)
    (m : List (commandKey × Span)) (h : other ≠ key) :
    mapLookup key (mapInsert other span m) = mapLookup key m := by
  unfold mapLookup mapInsert
  have f : ¬ (decide ((other, span).1 = key) = true) := by simpa using h
  rw [@List.find?_cons_of_neg _ (fun e => decide (e.1 = key)) (other, span) _ f,
    find_filter_ne key other m h]

end apmmongo

namespace apmmongo

theorem started_eq (c : commandMonitor) (t : Tracer) (ctx : Context)
    (event : CommandStartedEvent) :
    ∃ name statement,
      started c t ctx event
        = if ctx.dropsSpan = true then
            (c, { t with started := t.started
                    ++ [⟨t.started.length, name, "db.mongodb.query", ctx.dropsSpan⟩] })
          else
            ({ c with spans := (mapInsert ⟨event.ConnectionID, event.RequestID⟩
                  ⟨t.started.length, name, "db.mongodb.query", ctx.dropsSpan⟩ c.spans) },
              { t with
                started := t.started
                  ++ [⟨t.started.length, name, "db.mongodb.query", ctx.dropsSpan⟩],
                databases := t.databases
                  ++ [(t.started.length, ⟨event.DatabaseName, "mongodb", statement⟩)] }) := by
  refine ⟨(match collectionName event.CommandName event.Command with
      | (collectionName, true) => collectionName ++ "." ++ event.CommandName
      | (_, false) => event.CommandName),
    (if event.Command.byteLen > 0 then
        match c.bsonRegistry event.Command with
        | some text => text
        | none => ""
      else ""), ?_⟩
  unfold started
  simp only [Tracer.StartSpan, Tracer.SetDatabase]

theorem finished_eq (c : commandMonitor) (t : Tracer) (ctx : Context)
    (event : CommandFinishedEvent) (err : Option String) :
    finished c t ctx event err
      = match mapLookup ⟨event.ConnectionID, event.RequestID⟩ c.spans with
        | none => (c, t)
        | some span =>
          ({ c with spans := mapDelete ⟨event.ConnectionID, event.RequestID⟩ c.spans },
            { t with
              errors := (match err with
                | some e => t.errors ++ [(span.id, e)]
                | none => t.errors),
              ended := t.ended ++ [span.id] }) := by
  cases h : mapLookup ⟨event.ConnectionID, event.RequestID⟩ c.spans with
  | none => simp only [finished, h]
  | some span =>
    simp only [finished, h]
    cases err <;> rfl

theorem step_of_isFinish (s : commandMonitor × Tracer) (f : Event)
    (h : f.isFinish = true) :
    ∃ ctx event err, step s f = finished s.1 s.2 ctx event err
      ∧ (⟨event.ConnectionID, event.RequestID⟩ : commandKey) = f.key := by
  cases f with
  | started ctx e => simp [Event.isFinish] at h
  | succeeded ctx e =>
    cases hg : getErrMsg e with
    | mk ifErr errMsg =>
      cases ifErr with
      | true =>
        exact ⟨ctx, e.toCommandFinishedEvent, errMsg, by simp [step, succeeded, hg], rfl⟩
      | false =>
        exact ⟨ctx, e.toCommandFinishedEvent, none, by simp [step, succeeded, hg], rfl⟩
  | failed ctx e => exact ⟨ctx, e.toCommandFinishedEvent, some e.Failure, rfl, rfl⟩

theorem step_finish_spans (s : commandMonitor × Tracer) (f : Event) (h : f.isFinish = true) :
    (step s f).1.spans = mapDelete f.key s.1.spans := by
  obtain ⟨ctx, event, err, hstep, hkey⟩ := step_of_isFinish s f h
  rw [hstep, finished_eq, hkey]
  cases hl : mapLookup f.key s.1.spans with
  | none => exact (mapDelete_of_none _ _ hl).symm
  | some span => rfl

theorem step_finish_of_none (s : commandMonitor × Tracer) (f : Event)
    (h : f.isFinish = true) (hl : mapLookup f.key s.1.spans = none) : step s f = s := by
  obtain ⟨ctx, event, err, hstep, hkey⟩ := step_of_isFinish s f h
  rw [hstep, finished_eq, hkey, hl]

theorem step_finish_of_some (s : commandMonitor × Tracer) (f : Event) (span : Span)
    (h : f.isFinish = true) (hl : mapLookup f.key s.1.spans = some span) :
    (step s f).2.started = s.2.started ∧ (step s f).2.ended = s.2.ended ++ [span.id] := by
  obtain ⟨ctx, event, err, hstep, hkey⟩ := step_of_isFinish s f h
  rw [hstep, finished_eq, hkey, hl]
  exact ⟨rfl, rfl⟩

theorem step_start_spans (s : commandMonitor × Tracer) (ctx : Context)
    (event : CommandStartedEvent) :
    ∃ name,
      (step s (.started ctx event)).1.spans
          = (if ctx.dropsSpan = true then s.1.spans
              else mapInsert ⟨event.ConnectionID, event.RequestID⟩
                ⟨s.2.started.length, name, "db.mongodb.query", ctx.dropsSpan⟩ s.1.spans)
        ∧ (step s (.started ctx event)).2.started
          = s.2.started ++ [⟨s.2.started.length, name, "db.mongodb.query", ctx.dropsSpan⟩]
        ∧ (step s (.started ctx event)).2.ended = s.2.ended := by
  obtain ⟨name, statement, hs⟩ := started_eq s.1 s.2 ctx event
  refine ⟨name, ?_⟩
  by_cases hd : ctx.dropsSpan = true
  · simp [step, hs, hd]
  · simp [step, hs, hd]

theorem run_append (s : commandMonitor × Tracer) (events : List Event) (e : Event) :
    run s (events ++ [e]) = step (run s events) e := by
  simp [run, List.foldl_append]

theorem run_append_list (s : commandMonitor × Tracer) (xs ys : List Event) :
    run s (xs ++ ys) = run (run s xs) ys := by
  simp [run, List.foldl_append]

theorem run_cons (s : commandMonitor × Tracer) (e : Event) (events : List Event) :
    run s (e :: events) = run (step s e) events := rfl

/-- Every key of the map after a run from a fresh monitor belongs to a started
event of the run that no completion event with the same key follows. -/
theorem keys_run_fresh (bsonRegistry : Raw → Option String) (events : List Event)
    (key : commandKey)
    (h : key ∈ keys (run (CommandMonitor bsonRegistry, Tracer.fresh) events).1) :
    ∃ pre ctx event post, events = pre ++ [Event.started ctx event] ++ post
      ∧ (⟨event.ConnectionID, event.RequestID⟩ : commandKey) = key
      ∧ ∀ f ∈ post, ¬ (f.isFinish = true ∧ f.key = key) := by
  induction events using List.reverseRecOn generalizing key with
  | nil => simp [run, keys, CommandMonitor] at h
  | append_singleton evs e ih =>
    rw [run_append] at h
    simp only [keys, List.mem_map] at h
    obtain ⟨entry, hentry, hk⟩ := h
    by_cases hf : e.isFinish = true
    · rw [step_finish_spans _ e hf, mem_mapDelete] at hentry
      have hold : key ∈ keys (run (CommandMonitor bsonRegistry, Tracer.fresh) evs).1 := by
        simp only [keys, List.mem_map]
        exact ⟨entry, hentry.1, hk⟩
      obtain ⟨pre, ctx, event, post, hevs, hkey, hpost⟩ := ih key hold
      refine ⟨pre, ctx, event, post ++ [e], ?_, hkey, ?_⟩
      · rw [hevs]
        simp
      · intro f hfmem
        rcases List.mem_append.1 hfmem with h1 | h1
        · exact hpost f h1
        · rw [List.mem_singleton] at h1
          subst h1
          intro hc
          exact hentry.2 (hk.trans hc.2.symm)
    · cases e with
      | started ctx event =>
        obtain ⟨name, hspans, _, _⟩ :=
          step_start_spans (run (CommandMonitor bsonRegistry, Tracer.fresh) evs) ctx event
        rw [hspans] at hentry
        have hcase : (⟨event.ConnectionID, event.RequestID⟩ : commandKey) = key
            ∨ key ∈ keys (run (CommandMonitor bsonRegistry, Tracer.fresh) evs).1 := by
          by_cases hd : ctx.dropsSpan = true
          · simp only [hd, if_true] at hentry
            right
            simp only [keys, List.mem_map]
            exact ⟨entry, hentry, hk⟩
          · simp only [hd, if_false] at hentry
            rcases (mem_mapInsert _ _ _ _).1 hentry with h1 | h1
            · left
              rw [h1] at hk
              exact hk
            · right
              simp only [keys, List.mem_map]
              exact ⟨entry, h1.1, hk⟩
        rcases hcase with h1 | h1
        · exact ⟨evs, ctx, event, [], by simp, h1, by simp⟩
        · obtain ⟨pre, ctx2, event2, post, hevs, hkey, hpost⟩ := ih key h1
          refine ⟨pre, ctx2, event2, post ++ [Event.started ctx event], ?_, hkey, ?_⟩
          · rw [hevs]
            simp
          · intro f hfmem
            rcases List.mem_append.1 hfmem with h2 | h2
            · exact hpost f h2
            · rw [List.mem_singleton] at h2
              subst h2
              simp [Event.isFinish]
      | succeeded ctx event => simp [Event.isFinish] at hf
      | failed ctx event => simp [Event.isFinish] at hf

end apmmongo

namespace apmmongo

theorem Inv_fresh (bsonRegistry : Raw → Option String) :
    Inv (CommandMonitor bsonRegistry, Tracer.fresh) := by
  simp [Inv, CommandMonitor, Tracer.fresh]

theorem Inv_step (s : commandMonitor × Tracer) (e : Event) (h : Inv s) : Inv (step s e) := by
  obtain ⟨ha, hb, hc, hd, he⟩ := h
  by_cases hf : e.isFinish = true
  · cases hl : mapLookup e.key s.1.spans with
    | none =>
      rw [step_finish_of_none s e hf hl]
      exact ⟨ha, hb, hc, hd, he⟩
    | some span =>
      have hmem := mapLookup_mem _ _ _ hl
      obtain ⟨hst, hen⟩ := step_finish_of_some s e span hf hl
      have hsp := step_finish_spans s e hf
      unfold Inv
      rw [hsp, hst, hen]
      refine ⟨?_, ?_, ?_, ?_, ?_⟩
      · intro x hx
        exact ha x ((mem_mapDelete _ _ _).1 hx).1
      · intro x hx hc2
        obtain ⟨hx1, hx2⟩ := (mem_mapDelete _ _ _).1 hx
        rcases List.mem_append.1 hc2 with h1 | h1
        · exact hb x hx1 h1
        · rw [List.mem_singleton] at h1
          exact hx2 (he x hx1 (e.key, span) hmem h1)
      · rw [List.nodup_append]
        refine ⟨hc, List.nodup_singleton _, ?_⟩
        intro a ha1 ha2
        rw [List.mem_singleton] at ha2
        subst ha2
        exact hb _ hmem ha1
      · intro id hid
        rcases List.mem_append.1 hid with h1 | h1
        · exact hd id h1
        · rw [List.mem_singleton] at h1
          subst h1
          exact ha _ hmem
      · intro x hx y hy hxy
        exact he x ((mem_mapDelete _ _ _).1 hx).1 y ((mem_mapDelete _ _ _).1 hy).1 hxy
  · cases e with
    | started ctx event =>
      obtain ⟨name, hsp, hst, hen⟩ := step_start_spans s ctx event
      unfold Inv
      rw [hsp, hst, hen]
      by_cases hdrop : ctx.dropsSpan = true
      · simp only [hdrop, if_true, List.length_append, List.length_singleton]
        exact ⟨fun x hx => Nat.lt_succ_of_lt (ha x hx), hb, hc,
          fun id hid => Nat.lt_succ_of_lt (hd id hid), he⟩
      · simp only [hdrop, if_false, List.length_append, List.length_singleton]
        refine ⟨?_, ?_, hc, fun id hid => Nat.lt_succ_of_lt (hd id hid), ?_⟩
        · intro x hx
          rcases (mem_mapInsert _ _ _ _).1 hx with h1 | h1
          · subst h1
            exact Nat.lt_succ_self _
          · exact Nat.lt_succ_of_lt (ha x h1.1)
        · intro x hx
          rcases (mem_mapInsert _ _ _ _).1 hx with h1 | h1
          · subst h1
            intro hc2
            exact Nat.lt_irrefl _ (hd _ hc2)
          · exact hb x h1.1
        · intro x hx y hy hxy
          rcases (mem_mapInsert _ _ _ _).1 hx with h1 | h1
          · rcases (mem_mapInsert _ _ _ _).1 hy with h2 | h2
            · rw [h1, h2]
            · subst h1
              have hlt := ha y h2.1
              simp only at hxy
              omega
          · rcases (mem_mapInsert _ _ _ _).1 hy with h2 | h2
            · subst h2
              have hlt := ha x h1.1
              simp only at hxy
              omega
            · exact he x h1.1 y h2.1 hxy
    | succeeded ctx event => simp [Event.isFinish] at hf
    | failed ctx event => simp [Event.isFinish] at hf

theorem Inv_run (s : commandMonitor × Tracer) (events : List Event) (h : Inv s) :
    Inv (run s events) := by
  induction events generalizing s with
  | nil => exact h
  | cons e es ih => exact ih (step s e) (Inv_step s e h)

theorem Orphan_step (id : Nat) (s : commandMonitor × Tracer) (e : Event) (h : Orphan id s) :
    Orphan id (step s e) := by
  obtain ⟨h1, h2, h3⟩ := h
  by_cases hf : e.isFinish = true
  · cases hl : mapLookup e.key s.1.spans with
    | none =>
      rw [step_finish_of_none s e hf hl]
      exact ⟨h1, h2, h3⟩
    | some span =>
      have hmem := mapLookup_mem _ _ _ hl
      obtain ⟨hst, hen⟩ := step_finish_of_some s e span hf hl
      have hsp := step_finish_spans s e hf
      unfold Orphan
      rw [hsp, hst, hen]
      refine ⟨h1, fun x hx => h2 x ((mem_mapDelete _ _ _).1 hx).1, ?_⟩
      intro hc
      rcases List.mem_append.1 hc with h4 | h4
      · exact h3 h4
      · rw [List.mem_singleton] at h4
        exact h2 _ hmem h4.symm
  · cases e with
    | started ctx event =>
      obtain ⟨name, hsp, hst, hen⟩ := step_start_spans s ctx event
      unfold Orphan
      rw [hsp, hst, hen]
      by_cases hdrop : ctx.dropsSpan = true
      · simp only [hdrop, if_true, List.length_append, List.length_singleton]
        exact ⟨Nat.lt_succ_of_lt h1, h2, h3⟩
      · simp only [hdrop, if_false, List.length_append, List.length_singleton]
        refine ⟨Nat.lt_succ_of_lt h1, ?_, h3⟩
        intro x hx
        rcases (mem_mapInsert _ _ _ _).1 hx with h4 | h4
        · subst h4
          simp only
          omega
        · exact h2 x h4.1
    | succeeded ctx event => simp [Event.isFinish] at hf
    | failed ctx event => simp [Event.isFinish] at hf

theorem Orphan_run (id : Nat) (s : commandMonitor × Tracer) (events : List Event)
    (h : Orphan id s) : Orphan id (run s events) := by
  induction events generalizing s with
  | nil => exact h
  | cons e es ih => exact ih (step s e) (Orphan_step id s e h)

theorem mapLookup_step_other (s : commandMonitor × Tracer) (e : Event) (key : commandKey)
    (h : e.key ≠ key) : mapLookup key (step s e).1.spans = mapLookup key s.1.spans := by
  by_cases hf : e.isFinish = true
  · rw [step_finish_spans s e hf, mapLookup_mapDelete_ne key e.key _ h]
  · cases e with
    | started ctx event =>
      obtain ⟨name, hsp, _, _⟩ := step_start_spans s ctx event
      rw [hsp]
      by_cases hdrop : ctx.dropsSpan = true
      · simp only [hdrop, if_true]
      · simp only [hdrop, if_false]
        exact mapLookup_mapInsert_ne key _ _ _ h
    | succeeded ctx event => simp [Event.isFinish] at hf
    | failed ctx event => simp [Event.isFinish] at hf

theorem mapLookup_run_other (s : commandMonitor × Tracer) (events : List Event)
    (key : commandKey) (h : ∀ e ∈ events, e.key ≠ key) :
    mapLookup key (run s events).1.spans = mapLookup key s.1.spans := by
  induction events generalizing s with
  | nil => rfl
  | cons e es ih =>
    rw [run_cons, ih (step s e) (fun x hx => h x (List.mem_cons_of_mem _ hx))]
    exact mapLookup_step_other s e key (h e (List.mem_cons_self _ _))

theorem mem_ended_step (s : commandMonitor × Tracer) (e : Event) (id : Nat)
    (h : id ∈ s.2.ended) : id ∈ (step s e).2.ended := by
  by_cases hf : e.isFinish = true
  · cases hl : mapLookup e.key s.1.spans with
    | none =>
      rw [step_finish_of_none s e hf hl]
      exact h
    | some span =>
      rw [(step_finish_of_some s e span hf hl).2]
      exact List.mem_append_left _ h
  · cases e with
    | started ctx event =>
      obtain ⟨name, _, _, hen⟩ := step_start_spans s ctx event
      rw [hen]
      exact h
    | succeeded ctx event => simp [Event.isFinish] at hf
    | failed ctx event => simp [Event.isFinish] at hf

theorem mem_ended_run (s : commandMonitor × Tracer) (events : List Event) (id : Nat)
    (h : id ∈ s.2.ended) : id ∈ (run s events).2.ended := by
  induction events generalizing s with
  | nil => exact h
  | cons e es ih => exact ih (step s e) (mem_ended_step s e id h)

end apmmongo

namespace apmmongo

/-- C3 (counterexample): when the tracer drops the span (the transaction is not
sampled), `started` opens a span and returns before recording it; the completion
event with the same connection id and request id then ends no span, so the
opened span is left open. -/
theorem dropped_span_never_ended :
    (run (CommandMonitor noStatement, Tracer.fresh)
        [.started ⟨true⟩ insertStarted]).2.started
        = [⟨0, "users.insert", "db.mongodb.query", true⟩]
      ∧ (Event.succeeded ⟨true⟩ (insertSucceeded replyOk)).key
        = (Event.started ⟨true⟩ insertStarted).key
      ∧ (run (CommandMonitor noStatement, Tracer.fresh)
          [.started ⟨true⟩ insertStarted,
           .succeeded ⟨true⟩ (insertSucceeded replyOk)]).2.ended = [] :=
  ⟨by decide, by decide, by decide⟩

/-- C3 (amended): in a run from a fresh monitor, `started` opens exactly one
span.  When the tracer does not drop it and the completion event with the same
connection id and request id follows, with no other event for that key in
between, the span is not ended before the completion event, it is the one span
ended during `finished`, its key leaves the map, and whatever events follow it
is ended exactly once.  When the tracer drops it, `started` leaves the map
unchanged and no later event ends the span. -/
theorem span_opened_once_ended_once (bsonRegistry : Raw → Option String)
    (pre mid post : List Event) (ctx : Context) (event : CommandStartedEvent) (f : Event)
    (hf : f.isFinish = true) (hkey : f.key = ⟨event.ConnectionID, event.RequestID⟩)
    (hmid : ∀ e ∈ mid, e.key ≠ ⟨event.ConnectionID, event.RequestID⟩) :
    ∃ span : Span,
      (step (run (CommandMonitor bsonRegistry, Tracer.fresh) pre)
          (.started ctx event)).2.started
        = (run (CommandMonitor bsonRegistry, Tracer.fresh) pre).2.started ++ [span]
      ∧ span.id = (run (CommandMonitor bsonRegistry, Tracer.fresh) pre).2.started.length
      ∧ span.dropped = ctx.dropsSpan
      ∧ (ctx.dropsSpan = false →
          span.id ∉ (run (step (run (CommandMonitor bsonRegistry, Tracer.fresh) pre)
              (.started ctx event)) mid).2.ended
          ∧ (step (run (step (run (CommandMonitor bsonRegistry, Tracer.fresh) pre)
              (.started ctx event)) mid) f).2.ended
            = (run (step (run (CommandMonitor bsonRegistry, Tracer.fresh) pre)
              (.started ctx event)) mid).2.ended ++ [span.id]
          ∧ f.key ∉ keys (step (run (step (run (CommandMonitor bsonRegistry, Tracer.fresh) pre)
              (.started ctx event)) mid) f).1
          ∧ (run (step (run (step (run (CommandMonitor bsonRegistry, Tracer.fresh) pre)
              (.started ctx event)) mid) f) post).2.ended.count span.id = 1)
      ∧ (ctx.dropsSpan = true →
          (step (run (CommandMonitor bsonRegistry, Tracer.fresh) pre)
              (.started ctx event)).1.spans
            = (run (CommandMonitor bsonRegistry, Tracer.fresh) pre).1.spans
          ∧ ∀ later : List Event,
              span.id ∉ (run (step (run (CommandMonitor bsonRegistry, Tracer.fresh) pre)
                (.started ctx event)) later).2.ended) := by
  have hI0 : Inv (run (CommandMonitor bsonRegistry, Tracer.fresh) pre) :=
    Inv_run _ pre (Inv_fresh bsonRegistry)
  generalize run (CommandMonitor bsonRegistry, Tracer.fresh) pre = s0 at hI0 ⊢
  obtain ⟨name, hsp, hst, hen⟩ := step_start_spans s0 ctx event
  have hI1 : Inv (step s0 (.started ctx event)) := Inv_step s0 _ hI0
  refine ⟨⟨s0.2.started.length, name, "db.mongodb.query", ctx.dropsSpan⟩, hst, rfl, rfl,
    ?_, ?_⟩
  · intro hdrop
    have hl1 : mapLookup ⟨event.ConnectionID, event.RequestID⟩
        (step s0 (.started ctx event)).1.spans
        = some ⟨s0.2.started.length, name, "db.mongodb.query", ctx.dropsSpan⟩ := by
      rw [hsp]
      simp only [hdrop, Bool.false_eq_true, if_false]
      exact mapLookup_mapInsert_self _ _ _
    have hI2 : Inv (run (step s0 (.started ctx event)) mid) := Inv_run _ mid hI1
    have hl2 : mapLookup f.key (run (step s0 (.started ctx event)) mid).1.spans
        = some ⟨s0.2.started.length, name, "db.mongodb.query", ctx.dropsSpan⟩ := by
      rw [hkey, mapLookup_run_other _ mid _ hmid, hl1]
    generalize run (step s0 (.started ctx event)) mid = s2 at hI2 hl2 ⊢
    have hmem := mapLookup_mem _ _ _ hl2
    obtain ⟨_, hen3⟩ := step_finish_of_some s2 f _ hf hl2
    have hI3 : Inv (run (step s2 f) post) := Inv_run _ post (Inv_step s2 f hI2)
    refine ⟨hI2.2.1 _ hmem, hen3, ?_, ?_⟩
    · intro hc
      simp only [keys, List.mem_map] at hc
      obtain ⟨x, hx, hxk⟩ := hc
      rw [step_finish_spans s2 f hf] at hx
      exact ((mem_mapDelete _ _ _).1 hx).2 hxk
    · apply List.count_eq_one_of_mem hI3.2.2.1
      apply mem_ended_run
      rw [hen3]
      exact List.mem_append_right _ (List.mem_singleton.2 rfl)
  · intro hdrop
    have hsp2 : (step s0 (.started ctx event)).1.spans = s0.1.spans := by
      rw [hsp]
      simp only [hdrop, if_true]
    refine ⟨hsp2, ?_⟩
    intro later
    have ho : Orphan s0.2.started.length (step s0 (.started ctx event)) := by
      unfold Orphan
      rw [hsp2, hst, hen]
      refine ⟨by simp, ?_, ?_⟩
      · intro x hx hc
        have := hI0.1 x hx
        omega
      · intro hc
        exact Nat.lt_irrefl _ (hI0.2.2.2.1 _ hc)
    exact (Orphan_run _ _ later ho).2.2

/-- C3 (amended), at the run `started`, `succeeded` of request 7 on `conn-1`
with a span the tracer keeps. -/
theorem span_opened_once_ended_once_witness :
    ∃ span : Span,
      (step (run (CommandMonitor noStatement, Tracer.fresh) [])
          (.started ⟨false⟩ insertStarted)).2.started
        = (run (CommandMonitor noStatement, Tracer.fresh) []).2.started ++ [span]
      ∧ span.id = (run (CommandMonitor noStatement, Tracer.fresh) []).2.started.length
      ∧ span.dropped = (⟨false⟩ : Context).dropsSpan
      ∧ ((⟨false⟩ : Context).dropsSpan = false →
          span.id ∉ (run (step (run (CommandMonitor noStatement, Tracer.fresh) [])
              (.started ⟨false⟩ insertStarted)) []).2.ended
          ∧ (step (run (step (run (CommandMonitor noStatement, Tracer.fresh) [])
              (.started ⟨false⟩ insertStarted)) [])
              (.succeeded ⟨false⟩ (insertSucceeded replyOk))).2.ended
            = (run (step (run (CommandMonitor noStatement, Tracer.fresh) [])
              (.started ⟨false⟩ insertStarted)) []).2.ended ++ [span.id]
          ∧ (Event.succeeded ⟨false⟩ (insertSucceeded replyOk)).key
            ∉ keys (step (run (step (run (CommandMonitor noStatement, Tracer.fresh) [])
              (.started ⟨false⟩ insertStarted)) [])
              (.succeeded ⟨false⟩ (insertSucceeded replyOk))).1
          ∧ (run (step (run (step (run (CommandMonitor noStatement, Tracer.fresh) [])
              (.started ⟨false⟩ insertStarted)) [])
              (.succeeded ⟨false⟩ (insertSucceeded replyOk))) []).2.ended.count span.id = 1)
      ∧ ((⟨false⟩ : Context).dropsSpan = true →
          (step (run (CommandMonitor noStatement, Tracer.fresh) [])
              (.started ⟨false⟩ insertStarted)).1.spans
            = (run (CommandMonitor noStatement, Tracer.fresh) []).1.spans
          ∧ ∀ later : List Event,
              span.id ∉ (run (step (run (CommandMonitor noStatement, Tracer.fresh) [])
                (.started ⟨false⟩ insertStarted)) later).2.ended) :=
  span_opened_once_ended_once noStatement [] [] [] ⟨false⟩ insertStarted
    (.succeeded ⟨false⟩ (insertSucceeded replyOk)) rfl rfl
    (fun _ h => absurd h (List.not_mem_nil _))

/-- C4: after any sequence of events applied to a fresh monitor, every key of
the correlation map is the key of a started event of the sequence that no later
succeeded or failed event with the same key follows; a completion event removes
its key's entry; a second completion event for the same key changes nothing; and
the map is empty after a sequence in which each started event is followed by a
completion event with its key. -/
theorem correlation_map_keys (bsonRegistry : Raw → Option String) (events : List Event) :
    (∀ key ∈ keys (run (CommandMonitor bsonRegistry, Tracer.fresh) events).1,
        ∃ pre ctx event post, events = pre ++ [Event.started ctx event] ++ post
          ∧ (⟨event.ConnectionID, event.RequestID⟩ : commandKey) = key
          ∧ ∀ f ∈ post, ¬ (f.isFinish = true ∧ f.key = key))
      ∧ (∀ (s : commandMonitor × Tracer) (f : Event), f.isFinish = true →
          f.key ∉ keys (step s f).1)
      ∧ (∀ (s : commandMonitor × Tracer) (f g : Event), f.isFinish = true →
          g.isFinish = true → g.key = f.key → step (step s f) g = step s f)
      ∧ ((∀ pre ctx event post, events = pre ++ [Event.started ctx event] ++ post →
            ∃ f ∈ post, f.isFinish = true
              ∧ f.key = (⟨event.ConnectionID, event.RequestID⟩ : commandKey)) →
          (run (CommandMonitor bsonRegistry, Tracer.fresh) events).1.spans = []) := by
  have hdel : ∀ (s : commandMonitor × Tracer) (f : Event), f.isFinish = true →
      f.key ∉ keys (step s f).1 := by
    intro s f hf hc
    simp only [keys, List.mem_map] at hc
    obtain ⟨x, hx, hxk⟩ := hc
    rw [step_finish_spans s f hf] at hx
    exact ((mem_mapDelete _ _ _).1 hx).2 hxk
  refine ⟨fun key hk => keys_run_fresh bsonRegistry events key hk, hdel, ?_, ?_⟩
  · intro s f g hf hg hgf
    apply step_finish_of_none _ g hg
    rw [hgf, step_finish_spans s f hf]
    exact mapLookup_mapDelete_self _ _
  · intro hall
    cases hs : (run (CommandMonitor bsonRegistry, Tracer.fresh) events).1.spans with
    | nil => rfl
    | cons x xs =>
      have hk : x.1 ∈ keys (run (CommandMonitor bsonRegistry, Tracer.fresh) events).1 := by
        simp only [keys, List.mem_map]
        exact ⟨x, by rw [hs]; exact List.mem_cons_self _ _, rfl⟩
      obtain ⟨pre, ctx, event, post, hev, hkey, hpost⟩ :=
        keys_run_fresh bsonRegistry events x.1 hk
      obtain ⟨f, hfmem, hff, hfk⟩ := hall pre ctx event post hev
      exact absurd ⟨hff, hfk.trans hkey⟩ (hpost f hfmem)

/-- C4, at the run `started`, `failed` of request 7 on `conn-1`: the started
event is followed by its completion event and the map is empty afterwards. -/
theorem correlation_map_keys_witness :
    (run (CommandMonitor noStatement, Tracer.fresh)
      [.started ⟨false⟩ insertStarted, .failed ⟨false⟩ insertFailed]).1.spans = [] :=
  (correlation_map_keys noStatement
      [.started ⟨false⟩ insertStarted, .failed ⟨false⟩ insertFailed]).2.2.2
    (by
      intro pre ctx event post h
      match pre, h with
      | [], h =>
        simp only [List.nil_append, List.singleton_append, List.cons.injEq] at h
        exact ⟨.failed ⟨false⟩ insertFailed, by rw [← h.2]; exact List.mem_singleton.2 rfl,
          rfl, by
            have h1 := h.1
            injection h1 with _ h2
            rw [← h2]
            rfl⟩
      | [a], h =>
        simp only [List.singleton_append, List.cons_append, List.nil_append,
          List.cons.injEq] at h
        exact absurd h.2.1 (by intro hc; cases hc)
      | a :: b :: rest, h =>
        have hl := congrArg List.length h
        simp at hl)

end apmmongo

/-! ## Theorems: the goji middleware -/

namespace apmgoji

/-- C6 (counterexample): the handler `nilPanicHandler` panics, and `recover()`
returns nil for its panic.  `TraceAndServe` returns normally and ends the
transaction, but the guard `v != nil` skips the recovery path: no status 500 is
written to the response writer, no error is built or sent, and the transaction
context records the status 0. -/
theorem TraceAndServe_nil_panic :
    nilPanicHandler.panics ≠ none
      ∧ TraceAndServe nilPanicHandler (some ⟨"GET /"⟩)
        = ⟨[.StartTransactionWithBody "GET /", .WrapResponseWriter, .ServeHTTP,
            .SetTransactionContext 0, .BodyDiscard, .TransactionEnd], 0, none⟩
      ∧ (TraceAndServe nilPanicHandler (some ⟨"GET /"⟩)).calls.count (.WriteHeader 500) = 0
      ∧ (TraceAndServe nilPanicHandler (some ⟨"GET /"⟩)).calls.count .ErrorSend = 0 :=
  ⟨by decide, by decide, by decide, by decide⟩

theorem TraceAndServe_value (status : Nat) (text : String) (cfg : Option ServeConfig) :
    TraceAndServe ⟨status, some (.value text)⟩ cfg
      = ⟨[.StartTransactionWithBody (cfg.getD ⟨""⟩).Resource, .WrapResponseWriter, .ServeHTTP,
          .WriteHeader 500, .Recovered (.value text), .ErrorSetTransaction,
          .ErrorSetContext 500, .ErrorSend, .SetTransactionContext 500, .BodyDiscard,
          .TransactionEnd], 500, none⟩ := by
  cases cfg <;> rfl

theorem TraceAndServe_nil (status : Nat) (cfg : Option ServeConfig) :
    TraceAndServe ⟨status, some .nil⟩ cfg
      = ⟨[.StartTransactionWithBody (cfg.getD ⟨""⟩).Resource, .WrapResponseWriter, .ServeHTTP,
          .SetTransactionContext status, .BodyDiscard, .TransactionEnd], status, none⟩ := by
  cases cfg <;> rfl

/-- C6 (amended): for a handler that panics, whatever status it wrote before and
whatever value `recover()` returns for the panic, `TraceAndServe` returns
normally (no panic is in flight after the deferred calls) and ends the
transaction exactly once.  When the recovered value is not nil, it writes status
500 to the original response writer, builds one recovered error from the value,
attaches it to the transaction and sends it, sets `resp.StatusCode` to 500 and
records it in the transaction context, each exactly once.  When the recovered
value is nil, it writes no status and sends no error, and the transaction
context records the status the handler left. -/
theorem TraceAndServe_recovers_panic (status : Nat) (v : PanicValue) (text : String)
    (cfg : Option ServeConfig) :
    ((TraceAndServe ⟨status, some v⟩ cfg).panicking = none
        ∧ (TraceAndServe ⟨status, some v⟩ cfg).calls.count .TransactionEnd = 1)
      ∧ ((TraceAndServe ⟨status, some (.value text)⟩ cfg).respStatusCode = 500
        ∧ (TraceAndServe ⟨status, some (.value text)⟩ cfg).calls
          = [.StartTransactionWithBody (cfg.getD ⟨""⟩).Resource, .WrapResponseWriter,
              .ServeHTTP, .WriteHeader 500, .Recovered (.value text), .ErrorSetTransaction,
              .ErrorSetContext 500, .ErrorSend, .SetTransactionContext 500, .BodyDiscard,
              .TransactionEnd]
        ∧ (TraceAndServe ⟨status, some (.value text)⟩ cfg).calls.count (.WriteHeader 500) = 1
        ∧ (TraceAndServe ⟨status, some (.value text)⟩ cfg).calls.count .ErrorSend = 1)
      ∧ ((TraceAndServe ⟨status, some .nil⟩ cfg).respStatusCode = status
        ∧ (TraceAndServe ⟨status, some .nil⟩ cfg).calls
          = [.StartTransactionWithBody (cfg.getD ⟨""⟩).Resource, .WrapResponseWriter,
              .ServeHTTP, .SetTransactionContext status, .BodyDiscard, .TransactionEnd]
        ∧ (TraceAndServe ⟨status, some .nil⟩ cfg).calls.count (.WriteHeader 500) = 0
        ∧ (TraceAndServe ⟨status, some .nil⟩ cfg).calls.count .ErrorSend = 0) := by
  refine ⟨⟨?_, ?_⟩, ⟨?_, ?_, ?_, ?_⟩, ⟨?_, ?_, ?_, ?_⟩⟩
  · cases v with
    | nil => rw [TraceAndServe_nil]
    | value t => rw [TraceAndServe_value]
  · cases v with
    | nil =>
      rw [TraceAndServe_nil]
      simp [List.count_cons]
    | value t =>
      rw [TraceAndServe_value]
      simp [List.count_cons]
  · rw [TraceAndServe_value]
  · rw [TraceAndServe_value]
  · rw [TraceAndServe_value]
    simp [List.count_cons]
  · rw [TraceAndServe_value]
    simp [List.count_cons]
  · rw [TraceAndServe_nil]
  · rw [TraceAndServe_nil]
  · rw [TraceAndServe_nil]
    simp [List.count_cons]
  · rw [TraceAndServe_nil]
    simp [List.count_cons]

end apmgoji

/-! ## Theorems: the replies reported as failed -/

namespace apmmongo

theorem succeeded_of_getErrMsg_none (c : commandMonitor) (t : Tracer) (ctx : Context)
    (event : CommandSucceededEvent) (h : getErrMsg event = (false, none)) :
    succeeded c t ctx event = finished c t ctx event.toCommandFinishedEvent none
      ∧ (succeeded c t ctx event).2.errors = t.errors
      ∧ (∀ span, mapLookup ⟨event.ConnectionID, event.RequestID⟩ c.spans = some span →
          succeeded c t ctx event
            = ({ c with spans := mapDelete ⟨event.ConnectionID, event.RequestID⟩ c.spans },
                { t with ended := t.ended ++ [span.id] }))
      ∧ (mapLookup ⟨event.ConnectionID, event.RequestID⟩ c.spans = none →
          succeeded c t ctx event = (c, t)) := by
  have hs : succeeded c t ctx event = finished c t ctx event.toCommandFinishedEvent none := by
    simp only [succeeded, h]
  refine ⟨hs, by rw [hs, finished_none_errors], ?_, ?_⟩
  · intro span hspan
    rw [hs, finished_eq, hspan]
  · intro hnone
    rw [hs, finished_eq, hnone]

theorem succeeded_of_getErrMsg_some (c : commandMonitor) (t : Tracer) (ctx : Context)
    (event : CommandSucceededEvent) (err : String) (h : getErrMsg event = (true, some err)) :
    succeeded c t ctx event = finished c t ctx event.toCommandFinishedEvent (some err)
      ∧ (∀ span, mapLookup ⟨event.ConnectionID, event.RequestID⟩ c.spans = some span →
          succeeded c t ctx event
            = ({ c with spans := mapDelete ⟨event.ConnectionID, event.RequestID⟩ c.spans },
                { t with errors := t.errors ++ [(span.id, err)],
                         ended := t.ended ++ [span.id] }))
      ∧ (mapLookup ⟨event.ConnectionID, event.RequestID⟩ c.spans = none →
          succeeded c t ctx event = (c, t)) := by
  have hs : succeeded c t ctx event
      = finished c t ctx event.toCommandFinishedEvent (some err) := by
    simp only [succeeded, h]
  refine ⟨hs, ?_, ?_⟩
  · intro span hspan
    rw [hs, finished_eq, hspan]
  · intro hnone
    rw [hs, finished_eq, hnone]

theorem not_hasErrorMessage_replyEmptyConcern : ¬ hasErrorMessage replyEmptyConcern := by
  intro h
  obtain ⟨_, h⟩ := h
  rcases h with ⟨s, hs⟩ | ⟨vals, d, m, hl, _⟩ | ⟨d, m, hl, hm, hne⟩
  · simp [replyEmptyConcern] at hs
  · simp [replyEmptyConcern, Raw.Lookup, lookup, Value.zero] at hl
  · simp only [replyEmptyConcern, Raw.Lookup, lookup] at hl
    simp only [String.reduceEq, if_false, if_true, Value.document.injEq] at hl
    subst hl
    simp only [lookup, String.reduceEq, if_false, if_true, Value.string.injEq] at hm
    exact hne hm.symm

/-- C1 (counterexample): the well-formed reply `replyNoErrmsg` has a top-level
`writeErrors` element, yet `getErrMsg` returns `(false, nil)`; after the
command's started event, `succeeded` ends the span without capturing or sending
any error. -/
theorem getErrMsg_writeErrors_not_reported :
    (insertSucceeded replyNoErrmsg).Reply.valid = true
      ∧ (∃ e ∈ (insertSucceeded replyNoErrmsg).Reply.elems, e.1 = "writeErrors")
      ∧ getErrMsg (insertSucceeded replyNoErrmsg) = (false, none)
      ∧ (run (CommandMonitor noStatement, Tracer.fresh)
          [.started ⟨false⟩ insertStarted,
           .succeeded ⟨false⟩ (insertSucceeded replyNoErrmsg)]).2.errors = []
      ∧ (run (CommandMonitor noStatement, Tracer.fresh)
          [.started ⟨false⟩ insertStarted,
           .succeeded ⟨false⟩ (insertSucceeded replyNoErrmsg)]).2.ended = [0] :=
  ⟨rfl, ⟨_, List.mem_cons_of_mem _ (List.mem_cons_self _ _), rfl⟩, by decide, by decide,
    by decide⟩

/-- C1 (amended): for a succeeded event whose reply is a well-formed document
that holds a top-level `errmsg` element with a string value, or a `writeErrors`
value that is a well-formed array with a document that has a non-empty string
`errmsg`, or a `writeConcernError` value that is a document with a non-empty
string `errmsg` (`hasErrorMessage`), `getErrMsg` returns `(true, err)` with
`err` non-nil and `succeeded` finishes the span with that error: the span
recorded under the event's key leaves the map, the error is captured and sent
for it, and it is ended.  For every other reply, malformed or holding these keys
without such a message, `getErrMsg` returns `(false, nil)` and `succeeded`
finishes the span with a nil error: the recorded span leaves the map and is
ended, and no error is sent. -/
theorem getErrMsg_reports_error (event : CommandSucceededEvent) :
    (hasErrorMessage event.Reply →
        ∃ err, getErrMsg event = (true, some err)
          ∧ ∀ (c : commandMonitor) (t : Tracer) (ctx : Context),
              succeeded c t ctx event
                = finished c t ctx event.toCommandFinishedEvent (some err)
              ∧ (∀ span,
                  mapLookup ⟨event.ConnectionID, event.RequestID⟩ c.spans = some span →
                  succeeded c t ctx event
                    = ({ c with spans :=
                          mapDelete ⟨event.ConnectionID, event.RequestID⟩ c.spans },
                        { t with errors := t.errors ++ [(span.id, err)],
                                 ended := t.ended ++ [span.id] })))
      ∧ (¬ hasErrorMessage event.Reply →
          getErrMsg event = (false, none)
            ∧ ∀ (c : commandMonitor) (t : Tracer) (ctx : Context),
                succeeded c t ctx event = finished c t ctx event.toCommandFinishedEvent none
                ∧ (succeeded c t ctx event).2.errors = t.errors
                ∧ (∀ span,
                    mapLookup ⟨event.ConnectionID, event.RequestID⟩ c.spans = some span →
                    succeeded c t ctx event
                      = ({ c with spans :=
                            mapDelete ⟨event.ConnectionID, event.RequestID⟩ c.spans },
                          { t with ended := t.ended ++ [span.id] }))) := by
  constructor
  · intro h
    obtain ⟨err, herr⟩ := getErrMsg_of_hasErrorMessage event h
    refine ⟨err, herr, ?_⟩
    intro c t ctx
    have hs := succeeded_of_getErrMsg_some c t ctx event err herr
    exact ⟨hs.1, hs.2.1⟩
  · intro h
    have hg := getErrMsg_of_not_hasErrorMessage event h
    refine ⟨hg, ?_⟩
    intro c t ctx
    have hs := succeeded_of_getErrMsg_none c t ctx event hg
    exact ⟨hs.1, hs.2.1, hs.2.2.1⟩

/-- C1 (amended), at the reply `{"ok": 0.0, "errmsg": "not primary"}`, which is
reported with an error, and at the reply `{"ok": 1.0, "writeConcernError":
{"code": 64, "errmsg": ""}}`, which is not. -/
theorem getErrMsg_reports_error_witness :
    (∃ err, getErrMsg (insertSucceeded replyErrmsg) = (true, some err)
        ∧ ∀ (c : commandMonitor) (t : Tracer) (ctx : Context),
            succeeded c t ctx (insertSucceeded replyErrmsg)
              = finished c t ctx (insertSucceeded replyErrmsg).toCommandFinishedEvent
                  (some err)
            ∧ (∀ span, mapLookup ⟨"conn-1", 7⟩ c.spans = some span →
                succeeded c t ctx (insertSucceeded replyErrmsg)
                  = ({ c with spans := mapDelete ⟨"conn-1", 7⟩ c.spans },
                      { t with errors := t.errors ++ [(span.id, err)],
                               ended := t.ended ++ [span.id] })))
      ∧ getErrMsg (insertSucceeded replyEmptyConcern) = (false, none) :=
  ⟨(getErrMsg_reports_error (insertSucceeded replyErrmsg)).1
      ⟨rfl, Or.inl ⟨"not primary", List.mem_cons_of_mem _ (List.mem_cons_self _ _)⟩⟩,
    ((getErrMsg_reports_error (insertSucceeded replyEmptyConcern)).2
      not_hasErrorMessage_replyEmptyConcern).1⟩

/-- C8: for a succeeded event whose reply is not a well-formed document, or has
no top-level element keyed `errmsg`, `writeErrors` or `writeConcernError`,
`getErrMsg` returns `(false, nil)` and `succeeded` finishes the span with a nil
error: no error is captured or sent, the span recorded under the event's key
leaves the map and is ended, and without a recorded span nothing changes. -/
theorem getErrMsg_no_error_field (event : CommandSucceededEvent)
    (h : event.Reply.valid = false
      ∨ ∀ e ∈ event.Reply.elems,
          e.1 ≠ "errmsg" ∧ e.1 ≠ "writeErrors" ∧ e.1 ≠ "writeConcernError") :
    getErrMsg event = (false, none)
      ∧ ∀ (c : commandMonitor) (t : Tracer) (ctx : Context),
          succeeded c t ctx event = finished c t ctx event.toCommandFinishedEvent none
          ∧ (succeeded c t ctx event).2.errors = t.errors
          ∧ (∀ span,
              mapLookup ⟨event.ConnectionID, event.RequestID⟩ c.spans = some span →
              succeeded c t ctx event
                = ({ c with spans :=
                      mapDelete ⟨event.ConnectionID, event.RequestID⟩ c.spans },
                    { t with ended := t.ended ++ [span.id] }))
          ∧ (mapLookup ⟨event.ConnectionID, event.RequestID⟩ c.spans = none →
              succeeded c t ctx event = (c, t)) := by
  have hg := getErrMsg_of_none event h
  exact ⟨hg, fun c t ctx => succeeded_of_getErrMsg_none c t ctx event hg⟩

/-- C8, at the reply `{"ok": 1.0, "n": 1}`. -/
theorem getErrMsg_no_error_field_witness :
    getErrMsg (insertSucceeded replyOk) = (false, none)
      ∧ ∀ (c : commandMonitor) (t : Tracer) (ctx : Context),
          succeeded c t ctx (insertSucceeded replyOk)
            = finished c t ctx (insertSucceeded replyOk).toCommandFinishedEvent none
          ∧ (succeeded c t ctx (insertSucceeded replyOk)).2.errors = t.errors
          ∧ (∀ span, mapLookup ⟨"conn-1", 7⟩ c.spans = some span →
              succeeded c t ctx (insertSucceeded replyOk)
                = ({ c with spans := mapDelete ⟨"conn-1", 7⟩ c.spans },
                    { t with ended := t.ended ++ [span.id] }))
          ∧ (mapLookup ⟨"conn-1", 7⟩ c.spans = none →
              succeeded c t ctx (insertSucceeded replyOk) = (c, t)) :=
  getErrMsg_no_error_field (insertSucceeded replyOk) (Or.inr (by decide))

end apmmongo
